import Mathlib

/-! Verification of powerdb: wire codec, connection and dispatch.

A shallow embedding of `server/conn.go`, `server/server.go`, `db/commands.go`
and `db/tx.go` of chenqinghe/powerdb, followed by theorems about the
request decoder, the reply encoder, the command registry, the serve loop
and the GET handler.

Conventions of the embedding:

* a byte is a natural number (the values below 256 are the real bytes);
* a Go `string` is the sequence of its bytes;
* a Go `[]byte` is `Option (List Nat)`, where `none` is the nil slice and
  `some []` an empty non-nil slice;
* the Go `int` is 64 bits wide; arithmetic on it wraps (`wrapInt`);
* a Go `(value, error)` result is a pair whose second component is
  `none` for the nil error;
* a run-time panic is an explicit outcome (`Outcome.panic`).
-/

namespace Powerdb

/-! Bytes, strings, errors -/

/-- A byte sequence. -/
abbrev Bytes := List Nat

/-- A Go string, as the sequence of its bytes. -/
abbrev GoString := List Nat

/-- A Go byte slice: `none` is nil, `some bs` a non-nil slice holding `bs`. -/
abbrev Slice := Option Bytes

/-- The bytes of an ASCII literal of the source. -/
def ascii (s : String) : Bytes := s.data.map Char.toNat

/-- Carriage return, line feed. -/
def crlf : Bytes := [13, 10]

/-- Go `len` of a byte slice (zero for nil). -/
def Slice.len : Slice → Nat
  | none => 0
  | some bs => bs.length

/-- The error values that occur in the embedded code. -/
inductive Error where
  /-- Go `io.EOF` -/
  | eof
  /-- Go `io.ErrUnexpectedEOF` -/
  | unexpectedEOF
  /-- The `protocolError(msg)` of conn.go -/
  | protocol (msg : String)
  /-- The `errors.New("redigo: closed")` of `conn.Close` -/
  | closed
  /-- The `errors.New("unsupported reply type:" + ty)` of `conn.WriteReply` -/
  | unsupportedReply (ty : String)
  /-- The `badger.ErrKeyNotFound` -/
  | keyNotFound
  /-- The error of a read from or a write to a socket that was closed locally -/
  | netClosed
  /-- Any other error of the network or of a storage backend, by its text -/
  | other (msg : String)
  /-- The `errors.New("server has already started")` of `Server.ListenAndServe` -/
  | alreadyStarted
  /-- The variable `ErrServerClosed` (server.go 71) -/
  | serverClosed
  deriving DecidableEq, Repr

/-- The `Error()` text of an error value. -/
def Error.text : Error → GoString
  | .eof => ascii "EOF"
  | .unexpectedEOF => ascii "unexpected EOF"
  | .protocol msg =>
      ascii "redigo: " ++ ascii msg ++
        ascii " (possible server error or unsupported concurrent read by application)"
  | .closed => ascii "redigo: closed"
  | .unsupportedReply ty => ascii "unsupported reply type:" ++ ascii ty
  | .keyNotFound => ascii "Key not found"
  | .netClosed => ascii "use of closed network connection"
  | .other msg => ascii msg
  | .alreadyStarted => ascii "server has already started"
  | .serverClosed => ascii "server closed"

/-- The result of a Go call that may panic. -/
inductive Outcome (α : Type) where
  | ret (a : α)
  | panic (msg : String)
  deriving DecidableEq, Repr

/-! Machine integers and decimal text -/

/-- Wrap-around of the 64-bit signed Go `int`. -/
def wrapInt (x : Int) : Int := (x + 2 ^ 63) % 2 ^ 64 - 2 ^ 63

/-- Largest size of one allocation of the Go runtime on 64-bit Linux
(`maxAlloc`): `make([]byte, n)` panics for `n` above it or below zero. -/
def maxAlloc : Nat := 2 ^ 48

/-- Decimal digits of `n`, most significant first, pushed in front of `acc`
(`fuel` bounds the number of digits). -/
def natDigits : Nat → Nat → Bytes → Bytes
  | 0, _, acc => acc
  | fuel + 1, n, acc =>
      if n < 10 then (48 + n) :: acc
      else natDigits fuel (n / 10) ((48 + n % 10) :: acc)

/-- Decimal text of a natural number, without leading zeros. -/
def formatNat (n : Nat) : Bytes := natDigits (n + 1) n []

/-- Go `strconv.Itoa`: decimal text, with a leading minus sign below zero. -/
def itoa (n : Int) : Bytes :=
  if n < 0 then 45 :: formatNat n.natAbs else formatNat n.natAbs

/-! The length parser -/

/-- The digit loop of `parseLen`: `n *= 10`, reject a non-digit, `n += b - '0'`. -/
def parseLenLoop : Bytes → Int → Int × Option Error
  | [], n => (n, none)
  | b :: bs, n =>
      let n := wrapInt (n * 10)
      if b < 48 ∨ b > 57 then (-1, some (.protocol "illegal bytes in length"))
      else parseLenLoop bs (wrapInt (n + ((b - 48 : Nat) : Int)))

/-- Function `parseLen` (conn.go 126-147): parses bulk string and array lengths. -/
def parseLen (p : Bytes) : Int × Option Error :=
  if p.length = 0 then (-1, some (.protocol "malformed length"))
  else if p[0]? = some 45 ∧ p.length = 2 ∧ p[1]? = some 49 then (-1, none)
  else parseLenLoop p 0

/-! The connection -/

/-- State of a `conn`: the latch, the socket, the buffered reader and the
buffered writer.

The read side is the byte stream as the `bufio.Reader` delivers it: `rd` is
what is still unread, `rdEnd` the error that reading gives once `rd` is
used up (`io.EOF` when the peer closed). The write side is a `bufio.Writer`
of 4096 bytes over the socket: `wbuf` is buffered, `sent` went out. A socket
write takes the whole slice or fails having taken nothing. Deadlines are
not part of the state. -/
structure Conn where
  /-- The terminal error `c.err` -/
  err : Option Error := none
  /-- Number of calls of `c.conn.Close()` so far -/
  closes : Nat := 0
  /-- What `c.conn.Close()` returns -/
  closeErr : Option Error := none
  /-- Unread bytes of the stream -/
  rd : Bytes := []
  /-- Error at the end of the stream -/
  rdEnd : Error := .eof
  /-- Number of the unread bytes that the `bufio.Reader` holds in its buffer
  at the time the socket is closed: they are still read after that -/
  rdBuffered : Nat := 0
  /-- Bytes held by the `bufio.Writer` -/
  wbuf : Bytes := []
  /-- Sticky error of the `bufio.Writer` -/
  bwErr : Option Error := none
  /-- Bytes written to the socket -/
  sent : Bytes := []
  /-- Error with which the peer side makes socket writes fail, if any -/
  sockWErr : Option Error := none
  deriving DecidableEq, Repr

/-- Size of the buffer of `bufio.NewWriter`. -/
def bufSize : Nat := 4096

/-- Every byte handed to the buffered writer so far, sent or still buffered. -/
def Conn.written (c : Conn) : Bytes := c.sent ++ c.wbuf

/-- The writer can take bytes: no sticky error, socket open and accepting. -/
def Conn.writable (c : Conn) : Prop :=
  c.bwErr = none ∧ c.closes = 0 ∧ c.sockWErr = none

instance (c : Conn) : Decidable c.writable := by
  unfold Conn.writable; infer_instance

/-- The call `c.conn.Close()`: the socket counts one more close, and of the
stream only what the buffer of the reader holds is left to read, after which
a read fails on the closed socket. -/
def Conn.closeSocket (c : Conn) : Conn :=
  { c with closes := c.closes + 1, rd := c.rd.take c.rdBuffered, rdEnd := .netClosed }

/-- Method `conn.Close` (conn.go 59-68). -/
def Conn.Close (c : Conn) : Conn × Option Error :=
  match c.err with
  | none => ({ c.closeSocket with err := some .closed }, c.closeErr)
  | some e => (c, some e)

/-- Method `conn.fatal` (conn.go 70-80). -/
def Conn.fatal (c : Conn) (err : Error) : Conn × Error :=
  match c.err with
  | none => ({ c.closeSocket with err := some err }, err)
  | some _ => (c, err)

/-- Method `conn.Err` (conn.go 82-87). -/
def Conn.Err (c : Conn) : Option Error := c.err

/-! Reading -/

/-- Cut a byte sequence after its first line feed; `none` when it has none. -/
def splitLine : Bytes → Option (Bytes × Bytes)
  | [] => none
  | b :: bs =>
      if b = 10 then some ([b], bs)
      else match splitLine bs with
        | none => none
        | some (l, r) => some (b :: l, r)

/-- Method `conn.readLine` (conn.go 101-124): the line up to the next line feed
(of any length, by the fall-back loop over `ReadSlice`), which has to end
in CR LF; the line is returned without the terminator. When the stream ends
before a line feed, what was left is consumed and the error of the stream
is returned. -/
def Conn.readLine (c : Conn) : Conn × Except Error Bytes :=
  match splitLine c.rd with
  | none => ({ c with rd := [] }, .error c.rdEnd)
  | some (p, rest) =>
      let c1 := { c with rd := rest }
      let i : Int := (p.length : Int) - 2
      if i < 0 ∨ p[i.toNat]? ≠ some 13 then
        (c1, .error (.protocol "bad response line terminator"))
      else (c1, .ok (p.take i.toNat))

/-- Go `io.ReadFull(c.br, buf)` for a buffer of `l` bytes: `l` bytes of the
stream, or the error of the stream when it ends before (`io.EOF` becomes
`io.ErrUnexpectedEOF` when at least one byte was read). -/
def Conn.readFull (c : Conn) (l : Nat) : Conn × Except Error Bytes :=
  if l ≤ c.rd.length then ({ c with rd := c.rd.drop l }, .ok (c.rd.take l))
  else
    ({ c with rd := [] },
      .error (if 0 < c.rd.length ∧ c.rdEnd = .eof then .unexpectedEOF else c.rdEnd))

/-- Method `conn.readLen` (conn.go 242-256). -/
def Conn.readLen (c : Conn) : Conn × (Int × Option Error) :=
  match c.readLine with
  | (c1, .error e) => (c1, (0, some e))
  | (c1, .ok line) =>
      if line.length = 0 then (c1, (0, some (.protocol "short response line")))
      else if line.head? ≠ some 36 then
        (c1, (0, some (.protocol "len not start with \x27$\x27")))
      else (c1, parseLen (line.drop 1))

/-- A decoded request (server.go 44-47). -/
structure Request where
  Command : GoString
  Args : List Slice
  deriving DecidableEq, Repr

/-- Function `utils.BytesToString` (utils/strings.go 13-19). -/
def BytesToString (b : Slice) : GoString :=
  if b.len = 0 then [] else b.getD []

/-- The argument loop of `readRequest` (conn.go 214-234), with `k` iterations
to go and `args` read so far.

The buffer of an argument is made before a byte of the payload is read:
`make([]byte, l)` panics for `l` below zero or above `maxAlloc`, and the
runtime stops the process with a fatal error, recorded here as a panic with
its text, for an `l` above `mem`, the largest buffer that the memory of the
process still holds. Where `mem` is not given, memory is not short: every
buffer up to `maxAlloc` is made. -/
def Conn.readArgs (c : Conn) (k : Nat) (args : List Slice) (mem : Nat := maxAlloc) :
    Conn × Outcome (Except Error (List Slice)) :=
  match k with
  | 0 => (c, .ret (.ok args))
  | k + 1 =>
      match c.readLen with
      | (c1, (_, some e)) => (c1, .ret (.error e))
      | (c1, (l, none)) =>
          if l < 0 ∨ l > (maxAlloc : Int) then (c1, .panic "runtime error: makeslice: len out of range")
          else if l > (mem : Int) then (c1, .panic "fatal error: runtime: out of memory")
          else
            match c1.readFull l.toNat with
            | (c2, .error e) => (c2, .ret (.error e))
            | (c2, .ok arg) =>
                match c2.readLine with
                | (c3, .error e) => (c3, .ret (.error e))
                | (c3, .ok line) =>
                    if line.length ≠ 0 then
                      (c3, .ret (.error (.protocol "bad bulk string format")))
                    else c3.readArgs k (args ++ [some arg]) mem

/-- Method `conn.readRequest` (conn.go 194-240). The result is the pair
`(*Request, error)` of the source, or a panic; `mem` is the largest buffer
that the memory of the process still holds (see `readArgs`). -/
def Conn.readRequest (c : Conn) (mem : Nat := maxAlloc) :
    Conn × Outcome (Option Request × Option Error) :=
  match c.readLine with
  | (c1, .error e) => (c1, .ret (none, some e))
  | (c1, .ok line) =>
      if line.length = 0 then (c1, .ret (none, some (.protocol "short response line")))
      else if line.head? ≠ some 42 then
        (c1, .ret (none, some (.protocol "request not start with \x27*\x27")))
      else
        match parseLen (line.drop 1) with
        | (numArgs, err) =>
            if numArgs < 0 ∨ err ≠ none then (c1, .ret (none, err))
            else
              match c1.readArgs numArgs.toNat [] mem with
              | (c2, .panic msg) => (c2, .panic msg)
              | (c2, .ret (.error e)) => (c2, .ret (none, some e))
              | (c2, .ret (.ok args)) =>
                  match args with
                  | [] => (c2, .panic "runtime error: index out of range [0] with length 0")
                  | a0 :: rest =>
                      (c2, .ret (some { Command := BytesToString a0, Args := rest }, none))

/-! Writing -/

/-- A write to the socket: refused once the socket was closed locally,
refused with `sockWErr` when the peer side fails, taken whole otherwise. -/
def Conn.sockWrite (c : Conn) (p : Bytes) : Conn × Option Error :=
  if 0 < c.closes then (c, some .netClosed)
  else match c.sockWErr with
    | some e => (c, some e)
    | none => ({ c with sent := c.sent ++ p }, none)

/-- Go `bufio.Writer.Flush` on `c.bw`. -/
def Conn.bwFlush (c : Conn) : Conn × Option Error :=
  match c.bwErr with
  | some e => (c, some e)
  | none =>
      if c.wbuf.length = 0 then (c, none)
      else match c.sockWrite c.wbuf with
        | (c1, some e) => ({ c1 with bwErr := some e }, some e)
        | (c1, none) => ({ c1 with wbuf := [] }, none)

/-- Go `bufio.Writer.Write` on `c.bw`: a slice that fits is copied into the
buffer; one that does not fit goes to the socket directly when the buffer is
empty, and otherwise fills the buffer, which is flushed, before the rest is
treated the same way. A sticky error is returned without writing. -/
def Conn.bwWrite (c : Conn) (p : Bytes) : Conn × Option Error :=
  match c.bwErr with
  | some e => (c, some e)
  | none =>
      if p.length ≤ bufSize - c.wbuf.length then ({ c with wbuf := c.wbuf ++ p }, none)
      else if c.wbuf.length = 0 then
        match c.sockWrite p with
        | (c1, some e) => ({ c1 with bwErr := some e }, some e)
        | (c1, none) => (c1, none)
      else
        let avail := bufSize - c.wbuf.length
        match Conn.bwFlush { c with wbuf := c.wbuf ++ p.take avail } with
        | (c1, some e) => (c1, some e)
        | (c1, none) =>
            let q := p.drop avail
            if q.length ≤ bufSize then ({ c1 with wbuf := q }, none)
            else match c1.sockWrite q with
              | (c2, some e) => ({ c2 with bwErr := some e }, some e)
              | (c2, none) => (c2, none)

/-- The values handed to `WriteReply(r interface{})`: the five reply types
of conn.go 258-264, the nil interface value, and a value of any other type
(by the name of its type). -/
inductive Reply where
  | status (s : GoString)
  | error (s : GoString)
  | integer (n : Int)
  | bulk (p : Slice)
  | multiBulk (ps : List Slice)
  | nil
  | unsupported (ty : String)
  deriving DecidableEq, Repr

/-- The `case BulkReply` of `conn.WriteReply` (conn.go 313-323). -/
def Conn.writeBulk (c : Conn) (reply : Slice) : Conn × Option Error :=
  match reply with
  | none => c.bwWrite ([36] ++ ascii "-1" ++ ascii "\r\n")
  | some bs => c.bwWrite ([36] ++ itoa bs.length ++ ascii "\r\n" ++ bs ++ ascii "\r\n")

/-- The loop `for _, v := range reply` of the `case MultiBulkReply`
(conn.go 332-336): each element is written as a `BulkReply`, the first error
ends the loop. -/
def Conn.writeBulks (c : Conn) : List Slice → Conn × Option Error
  | [] => (c, none)
  | v :: vs =>
      match c.writeBulk v with
      | (c1, some e) => (c1, some e)
      | (c1, none) => c1.writeBulks vs

/-- Method `conn.WriteReply` (conn.go 294-343). The recursive call
`c.WriteReply(BulkReply(v))` of the multi-bulk case is `writeBulk`. -/
def Conn.WriteReply (c : Conn) (r : Reply) : Conn × Option Error :=
  match r with
  | .status reply => c.bwWrite ([43] ++ reply ++ ascii "\r\n")
  | .error reply => c.bwWrite ([45] ++ reply ++ ascii "\r\n")
  | .integer reply => c.bwWrite ([58] ++ itoa reply ++ ascii "\r\n")
  | .bulk reply => c.writeBulk reply
  | .multiBulk reply =>
      match c.bwWrite ([42] ++ itoa reply.length ++ ascii "\r\n") with
      | (c1, some e) => (c1, some e)
      | (c1, none) => c1.writeBulks reply
  | .nil => (c, none)
  | .unsupported ty => (c, some (.unsupportedReply ty))

/-- Method `conn.WriteStatusReply` (conn.go 266-268). -/
def Conn.WriteStatusReply (c : Conn) (s : GoString) : Conn × Option Error :=
  c.WriteReply (.status s)

/-- Method `conn.WriteErrorReply` (conn.go 270-272). -/
def Conn.WriteErrorReply (c : Conn) (s : GoString) : Conn × Option Error :=
  c.WriteReply (.error s)

/-- Method `conn.WriteIntegerReply` (conn.go 274-276). -/
def Conn.WriteIntegerReply (c : Conn) (n : Int) : Conn × Option Error :=
  c.WriteReply (.integer n)

/-- Method `conn.WriteBulkReply` (conn.go 278-280). -/
def Conn.WriteBulkReply (c : Conn) (p : Slice) : Conn × Option Error :=
  c.WriteReply (.bulk p)

/-- Method `conn.WriteMultiBulkReply` (conn.go 282-284). -/
def Conn.WriteMultiBulkReply (c : Conn) (p : List Slice) : Conn × Option Error :=
  c.WriteReply (.multiBulk p)

/-- Method `conn.WriteOKReply` (conn.go 286-288). -/
def Conn.WriteOKReply (c : Conn) : Conn × Option Error :=
  c.WriteReply (.status (ascii "OK"))

/-- Method `conn.WriteNullBulkReply` (conn.go 290-292). -/
def Conn.WriteNullBulkReply (c : Conn) : Conn × Option Error :=
  c.WriteReply (.bulk none)

/-- Method `conn.Flush` (conn.go 349-357); setting the write deadline leaves
the state as it is. -/
def Conn.Flush (c : Conn) : Conn × Option Error :=
  match c.bwFlush with
  | (c1, some e) => ((c1.fatal e).1, some (c1.fatal e).2)
  | (c1, none) => (c1, none)

/-! The command registry and the serve loop (server.go) -/

/-- A command handler (server.go 69): it acts on the connection it is given
as reply writer. -/
abbrev HandlerFunc := Conn → Request → Conn

/-- State of a `Server` (server.go 18-29): the map `handlers`, by what a
lookup of a key gives, the flag `started`, and what the calls on the server
have done to its surroundings so far. -/
structure Server where
  handlers : GoString → Option HandlerFunc
  /-- The flag `started` -/
  started : Nat := 0
  /-- Number of listeners that `net.Listen` has opened -/
  listeners : Nat := 0
  /-- Number of calls of `s.cancel`, which fires the cancellation signal -/
  cancels : Nat := 0
  /-- Counter of the wait group `s.wg` -/
  wg : Nat := 0
  /-- Number of goroutines started with `go` -/
  tasks : Nat := 0

/-- Function `NewServer` (server.go 31-42). -/
def NewServer : Server := { handlers := fun _ => none }

/-- Go `strings.ToUpper` on ASCII text: the letters a to z are shifted to
A to Z, every other byte is kept. -/
def asciiUpper (s : GoString) : GoString :=
  s.map fun b => if 97 ≤ b ∧ b ≤ 122 then b - 32 else b

/-- Method `Server.Handle` (server.go 107-111), over the function `toUpper`
that stands for `strings.ToUpper`. -/
def Server.Handle (toUpper : GoString → GoString) (s : Server) (command : GoString)
    (fn : HandlerFunc) : Server :=
  { s with handlers := fun k => if k = toUpper command then some fn else s.handlers k }

/-- The lookup `s.handlers[strings.ToUpper(req.Command)]` of the serve loop
(server.go 139). -/
def Server.lookup (toUpper : GoString → GoString) (s : Server) (command : GoString) :
    Option HandlerFunc :=
  s.handlers (toUpper command)

/-- How one pass of the serve loop ends. -/
inductive Ctl where
  /-- The loop goes round again (`continue`, or the end of the body) -/
  | again
  /-- The function `handle` returns -/
  | exit
  /-- The goroutine panics -/
  | panic (msg : String)
  deriving DecidableEq, Repr

/-- Result of one pass of the serve loop: the connection, how the pass
ended, and the request handed to a handler, if one was invoked. -/
structure Pass where
  conn : Conn
  ctl : Ctl
  invoked : Option Request
  deriving DecidableEq, Repr

/-- One pass of the loop of `Server.handle` after the check of the context
(server.go 127-147). Logging and printing leave the state as it is; printing
`req.String()` dereferences the request. -/
def Server.handlePass (toUpper : GoString → GoString) (s : Server) (c : Conn)
    (mem : Nat := maxAlloc) : Pass :=
  match c.readRequest mem with
  | (c1, .panic msg) => { conn := c1, ctl := .panic msg, invoked := none }
  | (c1, .ret (_, some err)) =>
      if err = .eof then { conn := c1, ctl := .exit, invoked := none }
      else { conn := (c1.fatal err).1, ctl := .exit, invoked := none }
  | (c1, .ret (none, none)) =>
      { conn := c1, ctl := .panic "runtime error: invalid memory address or nil pointer dereference",
        invoked := none }
  | (c1, .ret (some req, none)) =>
      match s.lookup toUpper req.Command with
      | none =>
          let c2 := (c1.WriteErrorReply (ascii "unknown command: " ++ req.Command)).1
          { conn := c2.Flush.1, ctl := .again, invoked := none }
      | some handler =>
          let c2 := handler c1 req
          { conn := c2.Flush.1, ctl := .again, invoked := some req }

/-- Result of a run of the serve loop: the connection, the requests handed
to handlers in order, and the panic that ended the run, if any. -/
structure Run where
  conn : Conn
  invoked : List Request
  panicked : Option String
  deriving DecidableEq, Repr

/-- Method `Server.handle` (server.go 122-150), for at most `fuel` passes;
`none` when the loop is still running after them.

Modelled from the spec: `utils.ContextDone`, which is not among the sources,
is the non-blocking check of the cancellation signal; `ctxDone i` is what the
check gives at the start of pass `i`. -/
def Server.handle (toUpper : GoString → GoString) (s : Server) (ctxDone : Nat → Bool)
    (fuel i : Nat) (c : Conn) (log : List Request) (mem : Nat := maxAlloc) : Option Run :=
  match fuel with
  | 0 => none
  | fuel + 1 =>
      if ctxDone i then some { conn := c, invoked := log, panicked := none }
      else
        let p := s.handlePass toUpper c mem
        let log1 := log ++ p.invoked.toList
        match p.ctl with
        | .again => Server.handle toUpper s ctxDone fuel (i + 1) p.conn log1 mem
        | .exit => some { conn := p.conn, invoked := log1, panicked := none }
        | .panic msg => some { conn := p.conn, invoked := log1, panicked := some msg }

/-! The life cycle of the server (server.go) -/

/-- Method `Server.ListenAndServe` (server.go 73-88), from the call up to the
accept loop: the compare-and-swap of `started` from 0 to 1, `net.Listen`,
whose result is `listen` (`none` when the socket is bound), and the start of
the goroutine that waits for the cancellation. The result is the error with
which the call returns before the loop, `none` when it enters the loop (it
returns later, with the error of `Accept`). -/
def Server.ListenAndServe (s : Server) (listen : Option Error) : Server × Option Error :=
  if s.started ≠ 0 then (s, some .alreadyStarted)
  else
    let s1 := { s with started := 1 }
    match listen with
    | some err => (s1, some err)
    | none =>
        ({ s1 with listeners := s1.listeners + 1, wg := s1.wg + 1, tasks := s1.tasks + 1 }, none)

/-- Method `Server.Shutdown` (server.go 113-120): the compare-and-swap of
`started` from 1 to 0, `s.cancel()`, and `s.wg.Wait()`, which returns when
the counter of the wait group is zero. -/
def Server.Shutdown (s : Server) : Server × Option Error :=
  if s.started ≠ 1 then (s, some .serverClosed)
  else ({ s with started := 0, cancels := s.cancels + 1, wg := 0 }, none)

/-- A call on the life cycle of a server: `ListenAndServe`, with the result
of its `net.Listen`, or `Shutdown`. -/
inductive LifeCall where
  | listen (result : Option Error)
  | shutdown
  deriving DecidableEq, Repr

/-- The effect of one call on the life cycle. -/
def Server.call (s : Server) : LifeCall → Server × Option Error
  | .listen result => s.ListenAndServe result
  | .shutdown => s.Shutdown

/-- The server after a sequence of calls on its life cycle. -/
def Server.calls (s : Server) : List LifeCall → Server
  | [] => s
  | k :: ks => Server.calls (s.call k).1 ks

/-! Calls on the latch of a connection -/

/-- A call of `Close` or of `fatal(err)` on a connection. -/
inductive LatchCall where
  | close
  | fatal (err : Error)
  deriving DecidableEq, Repr

/-- The effect of one call on the latch, with the error it returns. -/
def Conn.latchCall (c : Conn) : LatchCall → Conn × Option Error
  | .close => c.Close
  | .fatal err => ((c.fatal err).1, some (c.fatal err).2)

/-- The connection after a sequence of calls on the latch. -/
def Conn.latchCalls (c : Conn) : List LatchCall → Conn
  | [] => c
  | k :: ks => Conn.latchCalls (c.latchCall k).1 ks

/-- The terminal error that a call on the latch records when it is the
first: the generic closed error for `Close`, `err` for `fatal(err)`. -/
def LatchCall.recorded : LatchCall → Error
  | .close => .closed
  | .fatal err => err

/-! The storage transaction and the GET handler (db/tx.go, db/commands.go) -/

/-- The part of the interface `Txn` (tx.go 10-43) that `Executor.Get` uses. -/
structure Txn where
  Get : Slice → Slice × Option Error

/-- A badger transaction, by what its `Get` gives for a key: an error
(`ErrKeyNotFound` for a key that is not stored), or an item, given by the
result of its `ValueCopy(nil)`. -/
abbrev BadgerTx := Slice → Except Error (Slice × Option Error)

/-- Method `badgerTxAdapter.Get` (tx.go 49-55). -/
def badgerTxAdapter.Get (tx : BadgerTx) (k : Slice) : Slice × Option Error :=
  match tx k with
  | .error err => (none, some err)
  | .ok item => item

/-- A bolt transaction, by its buckets: `none` for a bucket that does not
exist, otherwise what `Bucket.Get` gives for a key (nil for a key that is
not stored). -/
abbrev BoltTx := GoString → Option (Slice → Slice)

/-- The variable `defaultBucket` (tx.go 101). -/
def defaultBucket : GoString := ascii "defaultBucket"

/-- Method `boltTxAdapter.Get` (tx.go 103-109). -/
def boltTxAdapter.Get (tx : BoltTx) (k : Slice) : Slice × Option Error :=
  match tx defaultBucket with
  | none => (none, none)
  | some bucket => (bucket k, none)

/-- Method `Executor.Get` (commands.go 54-72) on the transaction `tx` that
`db.View` hands to the closure; `View` returns what the closure returns. -/
def Executor.Get (tx : Txn) (w : Conn) (req : Request) : Conn :=
  if req.Args.length ≠ 1 then
    (w.WriteErrorReply (ascii "wrong number args for command:" ++ req.Command)).1
  else
    match tx.Get (req.Args.headD none) with
    | (_, some err) => (w.WriteErrorReply (ascii "exec command error:" ++ err.text)).1
    | (val, none) => (w.WriteBulkReply val).1

/-! The wire grammar, in the words of the specification -/

/-- Wire form of one argument of a request frame: `$<len>\r\n<bytes>\r\n`,
the length in decimal without leading zeros. -/
def frameArg (a : Bytes) : Bytes :=
  [36] ++ formatNat a.length ++ crlf ++ a ++ crlf

/-- Wire form of a request frame: `*<argc>\r\n` followed by its arguments. -/
def requestFrame (args : List Bytes) : Bytes :=
  [42] ++ formatNat args.length ++ crlf ++ (args.map frameArg).flatten

/-- Wire form of a Bulk reply: `$<len>\r\n<bytes>\r\n` for a present value,
`$-1\r\n` for the null value. -/
def bulkWire : Slice → Bytes
  | none => [36, 45, 49, 13, 10]
  | some bs => [36] ++ formatNat bs.length ++ crlf ++ bs ++ crlf

/-! Notions used in the statements -/

/-- Value of a digit string read from the left, starting from `acc`. -/
def digitsVal (acc : Nat) (ds : Bytes) : Nat :=
  ds.foldl (fun a b => a * 10 + (b - 48)) acc

/-- Every byte is a decimal digit. -/
def AllDigits (ds : Bytes) : Prop := ∀ b ∈ ds, 48 ≤ b ∧ b ≤ 57

instance (ds : Bytes) : Decidable (AllDigits ds) := by
  unfold AllDigits; infer_instance

/-- The number that a string of decimal digits denotes: the digits, least
significant first, read in base ten. -/
def decimalValue (ds : Bytes) : Nat :=
  Nat.ofDigits 10 ((ds.map fun b => b - 48).reverse)

/-- The connection `c1` is `c` up to the unread part of the stream. -/
def Conn.rdOnly (c c1 : Conn) : Prop := c1 = { c with rd := c1.rd }

/-- Wire form of the array header of a request frame of `n` arguments. -/
def arrayHeader (n : Nat) : Bytes := [42] ++ formatNat n ++ crlf

/-- Wire form of the length header of the argument `a` of a request frame. -/
def argHeader (a : Bytes) : Bytes := [36] ++ formatNat a.length ++ crlf

/-- The stream `rd` is the request frame of `args` cut inside the payload of
one of its arguments, after at least one byte of the payload and before its
last. -/
def CutInPayload (args : List Bytes) (rd : Bytes) : Prop :=
  ∃ (done : List Bytes) (a : Bytes) (more : List Bytes) (payload : Bytes),
    args = done ++ a :: more ∧
      rd = arrayHeader args.length ++ ((done.map frameArg).flatten ++ (argHeader a ++ payload)) ∧
      payload ≠ [] ∧ payload.length < a.length

/-- A frame of one line, in the words of the specification: it ends in
CR LF and has no CR and no LF before that. -/
def SingleLine (frame : Bytes) : Prop :=
  frame.drop (frame.length - 2) = [13, 10] ∧
    13 ∉ frame.take (frame.length - 2) ∧ 10 ∉ frame.take (frame.length - 2)

instance (frame : Bytes) : Decidable (SingleLine frame) := by
  unfold SingleLine; infer_instance

/-- The connection `c1` has the terminal error and the socket of `c`: the
same recorded error, the same number of closes and, when the socket of `c`
is closed, the same bytes sent. -/
def Conn.latchKept (c c1 : Conn) : Prop :=
  c1.err = c.err ∧ c1.closes = c.closes ∧ (0 < c.closes → c1.sent = c.sent)

/-- The connection `c1` is `c` after the writer took the bytes `p`: only the
buffer and the socket output differ, and together they grew by `p`. -/
def Conn.wrote (c c1 : Conn) (p : Bytes) : Prop :=
  c1 = { c with sent := c1.sent, wbuf := c1.wbuf } ∧ c1.written = c.written ++ p

/-! Decimal text -/

theorem natDigits_acc (fuel n : Nat) (acc : Bytes) :
    natDigits fuel n acc = natDigits fuel n [] ++ acc := by
  induction fuel generalizing n acc with
  | zero => simp [natDigits]
  | succ f ih =>
      unfold natDigits
      split
      · simp
      · rw [ih (n / 10) ((48 + n % 10) :: acc), ih (n / 10) [48 + n % 10]]
        simp

theorem natDigits_succ (fuel n : Nat) :
    natDigits (fuel + 1) n [] =
      if n < 10 then [48 + n] else natDigits fuel (n / 10) [] ++ [48 + n % 10] := by
  conv_lhs => unfold natDigits
  split
  · rfl
  · rw [natDigits_acc]

theorem natDigits_allDigits (fuel n : Nat) : AllDigits (natDigits fuel n []) := by
  induction fuel generalizing n with
  | zero => intro b hb; simp [natDigits] at hb
  | succ f ih =>
      rw [natDigits_succ]
      split
      · intro b hb
        simp at hb
        omega
      · intro b hb
        rcases List.mem_append.mp hb with h | h
        · exact ih _ b h
        · simp at h
          omega

theorem digitsVal_append (acc : Nat) (xs ys : Bytes) :
    digitsVal acc (xs ++ ys) = digitsVal (digitsVal acc xs) ys := by
  simp [digitsVal, List.foldl_append]

theorem natDigits_val (fuel n : Nat) (h : n < fuel) : digitsVal 0 (natDigits fuel n []) = n := by
  induction fuel generalizing n with
  | zero => omega
  | succ f ih =>
      rw [natDigits_succ]
      split
      · simp [digitsVal]
      · have h1 : n / 10 < f := by omega
        rw [digitsVal_append, ih _ h1]
        simp [digitsVal]
        omega

theorem natDigits_ne_nil (fuel n : Nat) : natDigits (fuel + 1) n [] ≠ [] := by
  rw [natDigits_succ]
  split <;> simp

theorem formatNat_allDigits (n : Nat) : AllDigits (formatNat n) :=
  natDigits_allDigits _ _

theorem formatNat_val (n : Nat) : digitsVal 0 (formatNat n) = n :=
  natDigits_val _ _ (Nat.lt_succ_self n)

theorem formatNat_ne_nil (n : Nat) : formatNat n ≠ [] :=
  natDigits_ne_nil _ _

theorem natDigits_head (fuel n : Nat) (h : n < fuel) (hn : 0 < n) :
    (natDigits fuel n []).head? ≠ some 48 := by
  induction fuel generalizing n with
  | zero => omega
  | succ f ih =>
      rw [natDigits_succ]
      split
      · simp
        omega
      · have h1 : n / 10 < f := by omega
        have h2 : 0 < n / 10 := by omega
        obtain ⟨g, rfl⟩ : ∃ g, f = g + 1 := ⟨f - 1, by omega⟩
        rw [List.head?_append_of_ne_nil _ (natDigits_ne_nil g (n / 10))]
        exact ih _ h1 h2

/-- The decimal text of a positive number does not start with the digit 0. -/
theorem formatNat_no_leading_zero (n : Nat) (hn : 0 < n) : (formatNat n).head? ≠ some 48 :=
  natDigits_head _ _ (Nat.lt_succ_self n) hn

theorem le_digitsVal (acc : Nat) (ds : Bytes) : acc ≤ digitsVal acc ds := by
  induction ds generalizing acc with
  | nil => simp [digitsVal]
  | cons b bs ih =>
      have := ih (acc * 10 + (b - 48))
      simp only [digitsVal, List.foldl_cons] at this ⊢
      omega

theorem wrapInt_of_lt (x : Int) (h0 : 0 ≤ x) (h1 : x < 2 ^ 63) : wrapInt x = x := by
  unfold wrapInt
  norm_num at h1 ⊢
  omega

theorem parseLenLoop_digits (ds : Bytes) (acc : Nat) (hd : AllDigits ds)
    (hv : digitsVal acc ds < 2 ^ 63) :
    parseLenLoop ds (acc : Int) = (((digitsVal acc ds : Nat) : Int), none) := by
  induction ds generalizing acc with
  | nil => simp [parseLenLoop, digitsVal]
  | cons b bs ih =>
      have hb := hd b (List.mem_cons_self _ _)
      have hd1 : AllDigits bs := fun x hx => hd x (List.mem_cons_of_mem _ hx)
      have hv1 : digitsVal (acc * 10 + (b - 48)) bs < 2 ^ 63 := by
        simpa [digitsVal] using hv
      have hle := le_digitsVal (acc * 10 + (b - 48)) bs
      have hlt : acc * 10 + (b - 48) < 2 ^ 63 := lt_of_le_of_lt hle hv1
      have w1 : wrapInt ((acc : Int) * 10) = ((acc * 10 : Nat) : Int) := by
        rw [wrapInt_of_lt] <;> norm_num at hlt ⊢
        omega
      have w2 : wrapInt (((acc * 10 : Nat) : Int) + ((b - 48 : Nat) : Int)) =
          ((acc * 10 + (b - 48) : Nat) : Int) := by
        rw [wrapInt_of_lt] <;> norm_num at hlt ⊢ <;> omega
      have hnb : ¬ (b < 48 ∨ b > 57) := by omega
      simp only [parseLenLoop, hnb, if_false, w1, w2]
      rw [ih _ hd1 hv1]
      simp [digitsVal]

theorem parseLen_formatNat (n : Nat) (h : n < 2 ^ 63) :
    parseLen (formatNat n) = ((n : Int), none) := by
  have hne := formatNat_ne_nil n
  have hd := formatNat_allDigits n
  have hlen : (formatNat n).length ≠ 0 := by
    simpa [List.length_eq_zero] using hne
  have h45 : ¬ ((formatNat n)[0]? = some 45 ∧ (formatNat n).length = 2 ∧
      (formatNat n)[1]? = some 49) := by
    rintro ⟨h0, -, -⟩
    have hm : 45 ∈ formatNat n := by
      rw [List.getElem?_eq_some] at h0
      obtain ⟨hi, he⟩ := h0
      exact he ▸ List.getElem_mem _
    have := hd 45 hm
    omega
  unfold parseLen
  rw [if_neg hlen, if_neg h45]
  have := parseLenLoop_digits (formatNat n) 0 hd (by rw [formatNat_val]; exact h)
  simpa [formatNat_val] using this

/-! Reading a well-formed frame -/

theorem splitLine_append (l rest : Bytes) (h : 10 ∉ l) :
    splitLine (l ++ 10 :: rest) = some (l ++ [10], rest) := by
  induction l with
  | nil => simp [splitLine]
  | cons b bs ih =>
      have hb : b ≠ 10 := fun e => h (e ▸ List.mem_cons_self _ _)
      have hbs : 10 ∉ bs := fun m => h (List.mem_cons_of_mem _ m)
      simp [splitLine, hb, ih hbs]

theorem readLine_line (c : Conn) (l rest : Bytes) (h : 10 ∉ l)
    (hrd : c.rd = l ++ crlf ++ rest) :
    c.readLine = ({ c with rd := rest }, .ok l) := by
  have h13 : 10 ∉ l ++ [13] := by simp [h]
  have hs : splitLine c.rd = some (l ++ [13] ++ [10], rest) := by
    rw [hrd]
    have := splitLine_append (l ++ [13]) rest h13
    simpa [crlf] using this
  unfold Conn.readLine
  rw [hs]
  have hi : ((((l ++ [13] ++ [10]).length : Nat) : Int) - 2).toNat = l.length := by
    simp
  have hlt : ¬ ((((l ++ [13] ++ [10]).length : Nat) : Int) - 2 < 0) := by
    simp
  have hg : (l ++ [13] ++ [10])[l.length]? = some 13 := by
    rw [List.append_assoc, List.getElem?_append_right (le_refl _)]
    simp
  simp only [hi, hlt, false_or, hg]
  simp

theorem allDigits_no_lf (ds : Bytes) (h : AllDigits ds) : 10 ∉ ds := by
  intro hm
  have := h 10 hm
  omega

theorem readLen_header (c : Conn) (n : Nat) (rest : Bytes) (hn : n < 2 ^ 63)
    (hrd : c.rd = [36] ++ formatNat n ++ crlf ++ rest) :
    c.readLen = ({ c with rd := rest }, ((n : Int), none)) := by
  have hlf : 10 ∉ [36] ++ formatNat n := by
    have := allDigits_no_lf _ (formatNat_allDigits n)
    simp [this]
  unfold Conn.readLen
  rw [readLine_line c ([36] ++ formatNat n) rest hlf hrd]
  simp [parseLen_formatNat n hn]

theorem readFull_exact (c : Conn) (a rest : Bytes) (hrd : c.rd = a ++ rest) :
    c.readFull a.length = ({ c with rd := rest }, .ok a) := by
  unfold Conn.readFull
  simp [hrd]

theorem readArgs_frame (as : List Bytes) (c : Conn) (acc : List Slice) (rest : Bytes)
    (hl : ∀ a ∈ as, a.length ≤ maxAlloc)
    (hrd : c.rd = (as.map frameArg).flatten ++ rest) :
    c.readArgs as.length acc = ({ c with rd := rest }, .ret (.ok (acc ++ as.map some))) := by
  induction as generalizing c acc with
  | nil =>
      simp at hrd
      cases c
      simp_all [Conn.readArgs]
  | cons a as ih =>
      have ha : a.length ≤ maxAlloc := hl a (List.mem_cons_self _ _)
      have hl1 : ∀ x ∈ as, x.length ≤ maxAlloc := fun x hx => hl x (List.mem_cons_of_mem _ hx)
      have ha63 : a.length < 2 ^ 63 := by
        have : maxAlloc < 2 ^ 63 := by decide
        omega
      have h1 : c.rd = [36] ++ formatNat a.length ++ crlf ++
          (a ++ crlf ++ ((as.map frameArg).flatten ++ rest)) := by
        rw [hrd]
        simp [frameArg]
      have r1 := readLen_header c a.length _ ha63 h1
      have r2 := readFull_exact { c with rd := a ++ crlf ++ ((as.map frameArg).flatten ++ rest) }
        a (crlf ++ ((as.map frameArg).flatten ++ rest)) (by simp)
      have r3 := readLine_line
        { c with rd := crlf ++ ((as.map frameArg).flatten ++ rest) } []
        ((as.map frameArg).flatten ++ rest) (by simp) (by simp)
      have r4 := ih { c with rd := (as.map frameArg).flatten ++ rest } (acc ++ [some a]) hl1 rfl
      have hcond : ¬ ((a.length : Int) < 0 ∨ (a.length : Int) > (maxAlloc : Int)) := by
        omega
      have hmem : ¬ ((a.length : Int) > (maxAlloc : Int)) := by omega
      simp only [List.length_cons, Conn.readArgs, r1, hcond, hmem, if_false, Int.toNat_ofNat]
      simp only [] at r2 r3 r4
      rw [r2]
      simp only []
      rw [r3]
      simp only [List.length_nil, ne_eq, not_true_eq_false, if_false]
      rw [r4]
      simp

theorem readRequest_frame (c : Conn) (a0 : Bytes) (as : List Bytes) (rest : Bytes)
    (hn : as.length + 1 < 2 ^ 63) (hl : ∀ a ∈ a0 :: as, a.length ≤ maxAlloc)
    (hrd : c.rd = requestFrame (a0 :: as) ++ rest) :
    c.readRequest =
      ({ c with rd := rest }, .ret (some { Command := a0, Args := as.map some }, none)) := by
  have hlf : 10 ∉ [42] ++ formatNat (as.length + 1) := by
    have := allDigits_no_lf _ (formatNat_allDigits (as.length + 1))
    simp [this]
  have h1 : c.rd = [42] ++ formatNat (as.length + 1) ++ crlf ++
      (((a0 :: as).map frameArg).flatten ++ rest) := by
    rw [hrd]
    simp [requestFrame]
  have r1 := readLine_line c _ _ hlf h1
  have r2 := readArgs_frame (a0 :: as)
    { c with rd := ((a0 :: as).map frameArg).flatten ++ rest } [] rest hl rfl
  have hb : BytesToString (some a0) = a0 := by
    unfold BytesToString
    split
    · rename_i h
      simp [Slice.len] at h
      simp [h]
    · rfl
  unfold Conn.readRequest
  rw [r1]
  simp only [List.singleton_append, List.length_cons, List.head?_cons, List.drop_succ_cons,
    List.drop_zero, parseLen_formatNat _ hn]
  have hneg : ¬ ((as.length : Int) + 1 < 0) := by omega
  simp only [List.map_cons, List.flatten_cons, List.append_assoc, List.length_cons,
    List.nil_append] at r2
  simp [r2, hb, hneg]

/-! Writing through the buffered writer -/

theorem wrote_writable {c c1 : Conn} {p : Bytes} (h : c.wrote c1 p) (hw : c.writable) :
    c1.writable := by
  obtain ⟨he, -⟩ := h
  rw [he]
  exact hw

theorem wrote_trans {c c1 c2 : Conn} {p q : Bytes} (h1 : c.wrote c1 p) (h2 : c1.wrote c2 q) :
    c.wrote c2 (p ++ q) := by
  obtain ⟨e1, w1⟩ := h1
  obtain ⟨e2, w2⟩ := h2
  constructor
  · rw [e2, e1]
  · rw [w2, w1, List.append_assoc]

theorem wrote_refl (c : Conn) : c.wrote c [] := by
  constructor
  · rfl
  · simp

theorem sockWrite_ok (c : Conn) (p : Bytes) (hw : c.writable) :
    c.sockWrite p = ({ c with sent := c.sent ++ p }, none) := by
  obtain ⟨-, h2, h3⟩ := hw
  simp [Conn.sockWrite, h2, h3]

theorem bwFlush_ok (c : Conn) (hw : c.writable) :
    c.bwFlush = ({ c with sent := c.sent ++ c.wbuf, wbuf := [] }, none) := by
  obtain ⟨err, closes, closeErr, rd, rdEnd, rdBuffered, wbuf, bwErr, sent, sockWErr⟩ := c
  obtain ⟨h1, h2, h3⟩ := hw
  simp only at h1 h2 h3
  subst h1 h2 h3
  by_cases h0 : wbuf = []
  · simp [Conn.bwFlush, h0]
  · simp [Conn.bwFlush, Conn.sockWrite, h0]

theorem bwWrite_ok (c : Conn) (p : Bytes) (hw : c.writable) :
    (c.bwWrite p).2 = none ∧ c.wrote (c.bwWrite p).1 p := by
  obtain ⟨err, closes, closeErr, rd, rdEnd, rdBuffered, wbuf, bwErr, sent, sockWErr⟩ := c
  obtain ⟨h1, h2, h3⟩ := hw
  simp only at h1 h2 h3
  subst h1 h2 h3
  unfold Conn.bwWrite
  simp only []
  by_cases c1 : p.length ≤ bufSize - wbuf.length
  · simp [c1, Conn.wrote, Conn.written]
  · by_cases c2 : wbuf = []
    · subst c2
      have c1n : ¬ p.length ≤ bufSize := by simpa using c1
      simp [c1n, Conn.sockWrite, Conn.wrote, Conn.written]
    · have c2l : wbuf.length ≠ 0 := by simpa [List.length_eq_zero] using c2
      have hf := bwFlush_ok
        { err := err, closes := 0, closeErr := closeErr, rd := rd, rdEnd := rdEnd,
          rdBuffered := rdBuffered, wbuf := wbuf ++ p.take (bufSize - wbuf.length),
          bwErr := none, sent := sent, sockWErr := none } ⟨rfl, rfl, rfl⟩
      simp only [] at hf
      simp only [c1, c2l, if_false, hf]
      by_cases c3 : (p.drop (bufSize - wbuf.length)).length ≤ bufSize
      · simp only [c3, if_true]
        simp [Conn.wrote, Conn.written]
      · simp only [c3, if_false]
        simp [Conn.sockWrite, Conn.wrote, Conn.written]

theorem itoa_natCast (n : Nat) : itoa (n : Int) = formatNat n := by
  simp [itoa]

theorem writeBulk_ok (c : Conn) (v : Slice) (hw : c.writable) :
    (c.writeBulk v).2 = none ∧ c.wrote (c.writeBulk v).1 (bulkWire v) := by
  cases v with
  | none =>
      have h := bwWrite_ok c ([36] ++ ascii "-1" ++ ascii "\r\n") hw
      exact h
  | some bs =>
      have h := bwWrite_ok c ([36] ++ itoa bs.length ++ ascii "\r\n" ++ bs ++ ascii "\r\n") hw
      rw [itoa_natCast] at h
      exact h

theorem writeBulks_ok (vs : List Slice) (c : Conn) (hw : c.writable) :
    (c.writeBulks vs).2 = none ∧ c.wrote (c.writeBulks vs).1 (vs.map bulkWire).flatten := by
  induction vs generalizing c with
  | nil => exact ⟨rfl, wrote_refl c⟩
  | cons v vs ih =>
      obtain ⟨e1, w1⟩ := writeBulk_ok c v hw
      have hw1 := wrote_writable w1 hw
      obtain ⟨e2, w2⟩ := ih (c.writeBulk v).1 hw1
      have hstep : c.writeBulks (v :: vs) = (c.writeBulk v).1.writeBulks vs := by
        conv_lhs => unfold Conn.writeBulks
        revert e1
        generalize c.writeBulk v = r
        rcases r with ⟨c1, _ | e⟩ <;> simp
      rw [hstep]
      exact ⟨e2, by simpa using wrote_trans w1 w2⟩

theorem multiBulk_wrote (c : Conn) (vs : List Slice) (hw : c.writable) :
    (c.WriteReply (.multiBulk vs)).2 = none ∧
      c.wrote (c.WriteReply (.multiBulk vs)).1
        ([42] ++ formatNat vs.length ++ crlf ++ (vs.map bulkWire).flatten) := by
  obtain ⟨e1, w1⟩ := bwWrite_ok c ([42] ++ itoa vs.length ++ ascii "\r\n") hw
  rw [itoa_natCast] at e1 w1
  have hw1 := wrote_writable w1 hw
  obtain ⟨e2, w2⟩ := writeBulks_ok vs _ hw1
  have hstep : c.WriteReply (.multiBulk vs) =
      (c.bwWrite ([42] ++ formatNat vs.length ++ ascii "\r\n")).1.writeBulks vs := by
    conv_lhs => unfold Conn.WriteReply
    simp only [itoa_natCast]
    revert e1
    generalize c.bwWrite ([42] ++ formatNat vs.length ++ ascii "\r\n") = r
    rcases r with ⟨c1, _ | e⟩ <;> simp
  rw [hstep]
  exact ⟨e2, wrote_trans w1 w2⟩

theorem Flush_ok (c : Conn) (hw : c.writable) :
    c.Flush = ({ c with sent := c.sent ++ c.wbuf, wbuf := [] }, none) := by
  unfold Conn.Flush
  rw [bwFlush_ok c hw]

theorem bulkWire_eq_null_iff (p : Slice) : bulkWire p = [36, 45, 49, 13, 10] ↔ p = none := by
  constructor
  · intro h
    cases p with
    | none => rfl
    | some bs =>
        exfalso
        have hne := formatNat_ne_nil bs.length
        have hd := formatNat_allDigits bs.length
        cases hf : formatNat bs.length with
        | nil => exact hne hf
        | cons d ds =>
            have hm : d ∈ formatNat bs.length := by rw [hf]; exact List.mem_cons_self _ _
            have hd1 := hd d hm
            simp [bulkWire, hf] at h
            omega
  · intro h
    subst h
    rfl

/-! The request decoder on well-formed frames -/

/-- C1: for every non-empty list of byte strings `a0 :: as` (of arbitrary
bytes, CR and LF included) and every continuation `rest` of the stream,
`readRequest` on the frame `*<n+1>\r\n` followed by `$<len>\r\n<bytes>\r\n`
for each string returns no error and the request with command `a0` and
arguments `as`, and leaves exactly `rest` unread. The lists are such as a
Go program can hold: fewer than 2^63 strings, none longer than one
allocation. -/
theorem readRequest_decodes_frame (c : Conn) (a0 : Bytes) (as : List Bytes) (rest : Bytes)
    (hn : as.length + 1 < 2 ^ 63) (hl : ∀ a ∈ a0 :: as, a.length ≤ maxAlloc)
    (hrd : c.rd = requestFrame (a0 :: as) ++ rest) :
    c.readRequest =
      ({ c with rd := rest }, .ret (some { Command := a0, Args := as.map some }, none)) :=
  readRequest_frame c a0 as rest hn hl hrd

theorem readRequest_decodes_frame_witness :
    ({ rd := ascii "*2\r\n$3\r\nGET\r\n$2\r\n\r\n\r\n*1" } : Conn).readRequest =
      ({ rd := ascii "*1" },
        .ret (some { Command := ascii "GET", Args := [some (ascii "\r\n")] }, none)) :=
  readRequest_decodes_frame { rd := ascii "*2\r\n$3\r\nGET\r\n$2\r\n\r\n\r\n*1" }
    (ascii "GET") [ascii "\r\n"] (ascii "*1") (by decide) (by decide) (by decide)

/-- C2: decoding a well-formed request frame and encoding the decoded
argument list again as a MultiBulk reply gives back the frame: when
`readRequest` decodes the frame of `a0 :: as` into the request `r`, then
`WriteReply(MultiBulkReply([bytes of r.Command] ++ r.Args))` succeeds on a
writer that takes bytes and buffers exactly the bytes of the frame. -/
theorem decode_encode_roundtrip (c c1 : Conn) (a0 : Bytes) (as : List Bytes) (rest : Bytes)
    (r : Request) (w : Conn)
    (hn : as.length + 1 < 2 ^ 63) (hl : ∀ a ∈ a0 :: as, a.length ≤ maxAlloc)
    (hrd : c.rd = requestFrame (a0 :: as) ++ rest)
    (hdec : c.readRequest = (c1, .ret (some r, none)))
    (hw : w.writable) :
    (w.WriteReply (.multiBulk (some r.Command :: r.Args))).2 = none ∧
      (w.WriteReply (.multiBulk (some r.Command :: r.Args))).1.written =
        w.written ++ requestFrame (a0 :: as) := by
  rw [readRequest_frame c a0 as rest hn hl hrd] at hdec
  simp only [Prod.mk.injEq, Outcome.ret.injEq, Option.some.injEq, and_true] at hdec
  obtain ⟨-, hr⟩ := hdec
  subst hr
  obtain ⟨e, -, hwr⟩ := multiBulk_wrote w (some a0 :: as.map some) hw
  refine ⟨e, ?_⟩
  rw [hwr]
  have hm : List.map bulkWire (List.map some as) = List.map frameArg as := by
    rw [List.map_map]
    rfl
  simp [requestFrame, hm, bulkWire, frameArg]

theorem decode_encode_roundtrip_witness :
    ((({ } : Conn).WriteReply (.multiBulk [some (ascii "SET"), some (ascii "k"), some []])).2 =
        none ∧
      (({ } : Conn).WriteReply (.multiBulk [some (ascii "SET"), some (ascii "k"), some []])).1.written =
        ascii "*3\r\n$3\r\nSET\r\n$1\r\nk\r\n$0\r\n\r\n") :=
  decode_encode_roundtrip { rd := ascii "*3\r\n$3\r\nSET\r\n$1\r\nk\r\n$0\r\n\r\n" }
    { rd := [] } (ascii "SET") [ascii "k", []] []
    { Command := ascii "SET", Args := [some (ascii "k"), some []] } { }
    (by decide) (by decide) (by decide) (by decide) (by decide)

/-! The reply encoder -/

/-- C5: on a writer that takes bytes, `WriteReply` of a present Bulk value
`bs` buffers exactly `$<len>\r\n<bs>\r\n` with `<len>` the decimal length of
`bs` (so `$0\r\n\r\n` for the empty byte string), `WriteReply` of the nil
Bulk value, which is what `WriteNullBulkReply` writes, buffers exactly
`$-1\r\n`, both without error, and the bytes `$-1\r\n` are what a Bulk value
buffers if and only if the value is nil. -/
theorem WriteReply_bulk (c : Conn) (hw : c.writable) :
    (∀ bs : Bytes,
        (c.WriteReply (.bulk (some bs))).2 = none ∧
          (c.WriteReply (.bulk (some bs))).1.written =
            c.written ++ ([36] ++ formatNat bs.length ++ [13, 10] ++ bs ++ [13, 10])) ∧
      (c.WriteReply (.bulk (some []))).1.written = c.written ++ ascii "$0\r\n\r\n" ∧
      ((c.WriteReply (.bulk none)).2 = none ∧
        (c.WriteReply (.bulk none)).1.written = c.written ++ ascii "$-1\r\n") ∧
      c.WriteNullBulkReply = c.WriteReply (.bulk none) ∧
      (∀ p : Slice,
        (c.WriteReply (.bulk p)).1.written = c.written ++ ascii "$-1\r\n" ↔ p = none) := by
  have key : ∀ p : Slice, (c.WriteReply (.bulk p)).2 = none ∧
      (c.WriteReply (.bulk p)).1.written = c.written ++ bulkWire p := fun p =>
    ⟨(writeBulk_ok c p hw).1, (writeBulk_ok c p hw).2.2⟩
  refine ⟨fun bs => key (some bs), (key (some [])).2, key none, rfl, fun p => ?_⟩
  rw [(key p).2]
  constructor
  · intro h
    exact (bulkWire_eq_null_iff p).mp (List.append_cancel_left h)
  · intro h
    subst h
    rfl

theorem WriteReply_bulk_witness :
    (({ wbuf := ascii "+OK\r\n" } : Conn).WriteReply (.bulk (some (ascii "bar")))).1.written =
      ascii "+OK\r\n$3\r\nbar\r\n" :=
  ((WriteReply_bulk { wbuf := ascii "+OK\r\n" } (by decide)).1 (ascii "bar")).2

/-- C6: on a writer that takes bytes, `WriteReply(MultiBulkReply(vs))`
succeeds and buffers exactly `*<count>\r\n`, with `count` the decimal length
of `vs`, followed by the Bulk encodings of the elements of `vs` in order,
where the Bulk encoding `bulkWire v` of an element is what
`WriteReply(BulkReply(v))` buffers; the empty sequence gives `*0\r\n`. -/
theorem WriteReply_multiBulk (c : Conn) (vs : List Slice) (hw : c.writable) :
    (c.WriteReply (.multiBulk vs)).2 = none ∧
      (c.WriteReply (.multiBulk vs)).1.written =
        c.written ++ ([42] ++ formatNat vs.length ++ [13, 10] ++ (vs.map bulkWire).flatten) ∧
      (∀ v : Slice, (c.WriteReply (.bulk v)).1.written = c.written ++ bulkWire v) ∧
      (c.WriteReply (.multiBulk [])).1.written = c.written ++ ascii "*0\r\n" := by
  have key := fun ws => multiBulk_wrote c ws hw
  exact ⟨(key vs).1, (key vs).2.2, fun v => (writeBulk_ok c v hw).2.2, (key []).2.2⟩

theorem WriteReply_multiBulk_witness :
    (({ } : Conn).WriteReply (.multiBulk [some (ascii "a"), none, some []])).1.written =
      ascii "*3\r\n$1\r\na\r\n$-1\r\n$0\r\n\r\n" :=
  (WriteReply_multiBulk { } [some (ascii "a"), none, some []] (by decide)).2.1

/-- C7: on a writer that takes bytes, `WriteReply` succeeds and buffers
exactly `+s\r\n` for `StatusReply(s)`, exactly `-s\r\n` for `ErrorReply(s)`
and exactly `:<decimal of n>\r\n` for `IntegerReply(n)`, the decimal with a
leading minus sign when `n` is negative; `WriteOKReply` buffers `+OK\r\n`. -/
theorem WriteReply_status_error_integer (c : Conn) (s : GoString) (n : Int) (hw : c.writable) :
    ((c.WriteReply (.status s)).2 = none ∧
        (c.WriteReply (.status s)).1.written = c.written ++ ([43] ++ s ++ [13, 10])) ∧
      ((c.WriteReply (.error s)).2 = none ∧
        (c.WriteReply (.error s)).1.written = c.written ++ ([45] ++ s ++ [13, 10])) ∧
      ((c.WriteReply (.integer n)).2 = none ∧
        (c.WriteReply (.integer n)).1.written =
          c.written ++ ([58] ++ (if n < 0 then [45] else []) ++ formatNat n.natAbs ++ [13, 10])) ∧
      (c.WriteOKReply.2 = none ∧ c.WriteOKReply.1.written = c.written ++ ascii "+OK\r\n") := by
  have key := fun p => bwWrite_ok c p hw
  refine ⟨⟨(key _).1, (key _).2.2⟩, ⟨(key _).1, (key _).2.2⟩, ⟨(key _).1, ?_⟩,
    ⟨(key _).1, (key _).2.2⟩⟩
  have h := (key ([58] ++ itoa n ++ ascii "\r\n")).2.2
  simp only [Conn.WriteReply]
  rw [h]
  congr 1
  unfold itoa
  split <;> simp [ascii]

theorem WriteReply_status_error_integer_witness :
    (({ } : Conn).WriteReply (.integer (-42))).1.written = ascii ":-42\r\n" :=
  (WriteReply_status_error_integer { } [] (-42) (by decide)).2.2.1.2

/-! Malformed array headers -/

theorem parseLenLoop_zeros (m : Nat) : parseLenLoop (List.replicate m 48) 0 = (0, none) := by
  induction m with
  | zero => rfl
  | succ m ih =>
      have w0 : wrapInt 0 = 0 := by decide
      simp [List.replicate_succ, parseLenLoop, w0, ih]

theorem parseLen_zeros (k : Nat) : parseLen (List.replicate (k + 1) 48) = (0, none) := by
  unfold parseLen
  rw [parseLenLoop_zeros]
  simp [List.replicate_succ]

/-- C3: on every input whose array header declares zero elements, `*`
followed by one or more digits `0` and CR LF, `readRequest` does not return
a framing error: it panics on `args[0]`, the index being out of range for
the empty argument list. -/
theorem readRequest_zero_count_panics (c : Conn) (k : Nat) (rest : Bytes) :
    (({ c with rd := [42] ++ List.replicate (k + 1) 48 ++ [13, 10] ++ rest }).readRequest).2 =
      .panic "runtime error: index out of range [0] with length 0" := by
  have hlf : 10 ∉ [42] ++ List.replicate (k + 1) 48 := by
    simp [List.mem_replicate]
  have r1 := readLine_line
    { c with rd := [42] ++ List.replicate (k + 1) 48 ++ [13, 10] ++ rest }
    ([42] ++ List.replicate (k + 1) 48) rest hlf rfl
  unfold Conn.readRequest
  rw [r1]
  simp only [List.singleton_append, List.length_cons, List.head?_cons, List.drop_succ_cons,
    List.drop_zero, parseLen_zeros]
  simp [Conn.readArgs]

/-- C4: on the array header `*-1` the function `readRequest` returns a nil
request together with a nil error, and the pass of the serve loop that
called it panics when it prints the request. -/
theorem readRequest_minus_one_nil_nil (toUpper : GoString → GoString) (s : Server) :
    (({ rd := ascii "*-1\r\n" } : Conn).readRequest).2 = .ret (none, none) ∧
      (s.handlePass toUpper { rd := ascii "*-1\r\n" }).ctl =
        .panic "runtime error: invalid memory address or nil pointer dereference" := by
  have h : ({ rd := ascii "*-1\r\n" } : Conn).readRequest = ({ rd := [] }, .ret (none, none)) := by
    decide
  constructor
  · rw [h]
  · simp [Server.handlePass, h]

/-! The registry -/

/-- C8: after `Handle(n, h)` the lookup of the serve loop gives `h` for
every command text whose upper-cased form is that of `n`, whatever was
registered before, and gives what it gave before for every command text
whose upper-cased form differs; a pass of the serve loop that decodes a
request with such a command hands it to `h`. -/
theorem Handle_lookup (toUpper : GoString → GoString) (s : Server) (n : GoString)
    (h : HandlerFunc) :
    (∀ cmd, toUpper cmd = toUpper n → (s.Handle toUpper n h).lookup toUpper cmd = some h) ∧
      (∀ cmd, toUpper cmd ≠ toUpper n →
        (s.Handle toUpper n h).lookup toUpper cmd = s.lookup toUpper cmd) ∧
      (∀ (c c1 : Conn) (req : Request), c.readRequest = (c1, .ret (some req, none)) →
        toUpper req.Command = toUpper n →
        (s.Handle toUpper n h).handlePass toUpper c =
          { conn := (h c1 req).Flush.1, ctl := .again, invoked := some req }) := by
  have h1 : ∀ cmd, toUpper cmd = toUpper n →
      (s.Handle toUpper n h).lookup toUpper cmd = some h := by
    intro cmd hc
    simp [Server.Handle, Server.lookup, hc]
  refine ⟨h1, ?_, ?_⟩
  · intro cmd hc
    simp [Server.Handle, Server.lookup, hc]
  · intro c c1 req hdec hc
    simp [Server.handlePass, hdec, h1 _ hc]

theorem Handle_lookup_witness :
    ((Server.Handle asciiUpper { handlers := fun _ => none } (ascii "set") (fun c _ => c)).lookup
        asciiUpper (ascii "SeT")) = some (fun c _ => c) ∧
      ((Server.Handle asciiUpper { handlers := fun _ => none } (ascii "set") (fun c _ => c)).lookup
        asciiUpper (ascii "GET")) = none :=
  ⟨(Handle_lookup asciiUpper { handlers := fun _ => none } (ascii "set") (fun c _ => c)).1
      (ascii "SeT") (by decide),
    (Handle_lookup asciiUpper { handlers := fun _ => none } (ascii "set") (fun c _ => c)).2.1
      (ascii "GET") (by decide)⟩

/-! Reading touches the stream only -/

theorem rdOnly_trans {c c1 c2 : Conn} (h1 : c.rdOnly c1) (h2 : c1.rdOnly c2) : c.rdOnly c2 := by
  unfold Conn.rdOnly at *
  rw [h2, h1]

theorem readLine_rdOnly (c : Conn) : c.rdOnly c.readLine.1 := by
  unfold Conn.readLine
  split
  · rfl
  · simp only []
    split <;> rfl

theorem readFull_rdOnly (c : Conn) (l : Nat) : c.rdOnly (c.readFull l).1 := by
  unfold Conn.readFull
  split <;> rfl

theorem readLen_rdOnly (c : Conn) : c.rdOnly c.readLen.1 := by
  have h := readLine_rdOnly c
  unfold Conn.readLen
  revert h
  generalize c.readLine = r
  rcases r with ⟨c1, e | line⟩
  · intro h
    exact h
  · intro h
    simp only []
    split
    · exact h
    · split <;> exact h

theorem readArgs_rdOnly (k : Nat) (c : Conn) (args : List Slice) (mem : Nat) :
    c.rdOnly (c.readArgs k args mem).1 := by
  induction k generalizing c args with
  | zero => exact rfl
  | succ k ih =>
      have h1 := readLen_rdOnly c
      unfold Conn.readArgs
      revert h1
      generalize c.readLen = r1
      rcases r1 with ⟨c1, l, _ | e⟩
      · intro h1
        simp only []
        split
        · exact h1
        · split
          · exact h1
          · have h2 := readFull_rdOnly c1 l.toNat
            revert h2
            generalize c1.readFull l.toNat = r2
            rcases r2 with ⟨c2, e | arg⟩
            · intro h2
              exact rdOnly_trans h1 h2
            · intro h2
              simp only []
              have h3 := readLine_rdOnly c2
              revert h3
              generalize c2.readLine = r3
              rcases r3 with ⟨c3, e | line⟩
              · intro h3
                exact rdOnly_trans h1 (rdOnly_trans h2 h3)
              · intro h3
                simp only []
                split
                · exact rdOnly_trans h1 (rdOnly_trans h2 h3)
                · exact rdOnly_trans h1 (rdOnly_trans h2 (rdOnly_trans h3 (ih c3 _)))
      · intro h1
        exact h1

theorem readRequest_rdOnly (c : Conn) (mem : Nat) : c.rdOnly (c.readRequest mem).1 := by
  have h1 := readLine_rdOnly c
  unfold Conn.readRequest
  revert h1
  generalize c.readLine = r1
  rcases r1 with ⟨c1, e | line⟩
  · intro h1
    exact h1
  · intro h1
    simp only []
    split
    · exact h1
    · split
      · exact h1
      · split
        · exact h1
        · have h2 := readArgs_rdOnly (parseLen (line.drop 1)).1.toNat c1 [] mem
          revert h2
          generalize c1.readArgs (parseLen (line.drop 1)).1.toNat [] mem = r2
          rcases r2 with ⟨c2, (e | args) | msg⟩
          · intro h2
            exact rdOnly_trans h1 h2
          · intro h2
            cases args with
            | nil => exact rdOnly_trans h1 h2
            | cons a0 rest => exact rdOnly_trans h1 h2
          · intro h2
            exact rdOnly_trans h1 h2

/-! The serve loop on an unknown command -/

/-- C9: when a pass of the serve loop decodes a request whose upper-cased
command has no handler, on a connection whose writer takes bytes, the pass
invokes no handler, sends exactly what was buffered before followed by the
one Error reply `-unknown command: <command>\r\n`, leaves nothing buffered,
leaves the terminal error and the socket as they were (nothing is latched
or closed), and ends with the loop going round again: unless the context
is done, the loop goes on from the connection it leaves, whose stream is
what the decoded request left unread. -/
theorem handle_unknown_command (toUpper : GoString → GoString) (s : Server) (c c1 : Conn)
    (req : Request)
    (hdec : c.readRequest = (c1, .ret (some req, none)))
    (hunk : s.lookup toUpper req.Command = none)
    (hw : c.writable) :
    (s.handlePass toUpper c).ctl = .again ∧
      (s.handlePass toUpper c).invoked = none ∧
      (s.handlePass toUpper c).conn.sent =
        c.written ++ ([45] ++ ascii "unknown command: " ++ req.Command ++ [13, 10]) ∧
      (s.handlePass toUpper c).conn.wbuf = [] ∧
      (s.handlePass toUpper c).conn.err = c.err ∧
      (s.handlePass toUpper c).conn.closes = c.closes ∧
      (s.handlePass toUpper c).conn.rd = c1.rd ∧
      (∀ (ctxDone : Nat → Bool) (fuel i : Nat) (log : List Request), ctxDone i = false →
        s.handle toUpper ctxDone (fuel + 1) i c log =
          s.handle toUpper ctxDone fuel (i + 1) (s.handlePass toUpper c).conn log) := by
  have hro : c.rdOnly c1 := by
    have := readRequest_rdOnly c maxAlloc
    rw [hdec] at this
    exact this
  have hw1 : c1.writable := by
    rw [hro]
    exact hw
  have hb := bwWrite_ok c1 ([45] ++ (ascii "unknown command: " ++ req.Command) ++ ascii "\r\n") hw1
  generalize hc2 : (c1.bwWrite ([45] ++ (ascii "unknown command: " ++ req.Command) ++
    ascii "\r\n")).1 = c2 at hb
  obtain ⟨-, hcw, hwr⟩ := hb
  have hw2 : c2.writable := wrote_writable ⟨hcw, hwr⟩ hw1
  have hf := Flush_ok c2 hw2
  have hP : s.handlePass toUpper c =
      { conn := { c2 with sent := c2.sent ++ c2.wbuf, wbuf := [] }, ctl := .again,
        invoked := none } := by
    simp only [Server.handlePass, hdec, hunk, Conn.WriteErrorReply, Conn.WriteReply]
    rw [hc2, hf]
  have hsent : c2.sent ++ c2.wbuf =
      c.written ++ ([45] ++ ascii "unknown command: " ++ req.Command ++ [13, 10]) := by
    have e1 : c1.written = c.written := by
      rw [hro]
      rfl
    have e2 : c2.sent ++ c2.wbuf = c2.written := rfl
    rw [e2, hwr, e1]
    simp [ascii]
  have herr : c2.err = c.err := by
    rw [hcw, hro]
  have hcl : c2.closes = c.closes := by
    rw [hcw, hro]
  have hrd : c2.rd = c1.rd := by
    rw [hcw]
  refine ⟨?_, ?_, ?_, ?_, ?_, ?_, ?_, ?_⟩
  · rw [hP]
  · rw [hP]
  · rw [hP]
    exact hsent
  · rw [hP]
  · rw [hP]
    exact herr
  · rw [hP]
    exact hcl
  · rw [hP]
    exact hrd
  · intro ctxDone fuel i log hctx
    conv_lhs => unfold Server.handle
    simp [hctx, hP]

theorem handle_unknown_command_witness :
    (Server.handlePass asciiUpper { handlers := fun _ => none }
        { rd := ascii "*1\r\n$7\r\nUNKNOWN\r\n*1" }).conn.sent =
      ascii "-unknown command: UNKNOWN\r\n" :=
  (handle_unknown_command asciiUpper { handlers := fun _ => none }
    { rd := ascii "*1\r\n$7\r\nUNKNOWN\r\n*1" } { rd := ascii "*1" }
    { Command := ascii "UNKNOWN", Args := [] } (by decide) rfl (by decide)).2.2.1

/-! The GET handler on a key that is not stored -/

/-- C10: for the request `GET nox` on a key that is not stored, the Get
handler over the badger backend, whose transaction reports the key by the
error `ErrKeyNotFound`, writes the Error reply
`-exec command error:Key not found\r\n`; over the bolt backend, whose bucket
gives the nil value, it writes the null Bulk reply `$-1\r\n`. -/
theorem Get_not_found_badger_writes_error :
    (Executor.Get { Get := badgerTxAdapter.Get (fun _ => .error .keyNotFound) } { }
        { Command := ascii "GET", Args := [some (ascii "nox")] }).written =
        ascii "-exec command error:Key not found\r\n" ∧
      (Executor.Get { Get := boltTxAdapter.Get (fun _ => some (fun _ => none)) } { }
        { Command := ascii "GET", Args := [some (ascii "nox")] }).written =
        ascii "$-1\r\n" := by
  decide

/-! The latch of a connection -/

theorem latchCall_latched (c : Conn) (e : Error) (k : LatchCall) (h : c.err = some e) :
    (c.latchCall k).1 = c := by
  cases k <;> simp [Conn.latchCall, Conn.Close, Conn.fatal, h]

theorem latchCalls_latched (ks : List LatchCall) (c : Conn) (e : Error) (h : c.err = some e) :
    c.latchCalls ks = c := by
  induction ks with
  | nil => rfl
  | cons k ks ih =>
      simp only [Conn.latchCalls]
      rw [latchCall_latched c e k h]
      exact ih

theorem latchCall_first (c : Conn) (first : LatchCall) (h : c.err = none) :
    (c.latchCall first).1 = { c.closeSocket with err := some first.recorded } := by
  cases first <;> simp [Conn.latchCall, Conn.Close, Conn.fatal, h, LatchCall.recorded]

/-- C13: on a connection whose terminal error is not set, for every call
`first` of `Close` or `fatal` and every sequence `later` of such calls after
it: the first call closes the socket and records its error (the generic
closed error for `Close`, `e` for `fatal(e)`), and after the whole sequence
the socket has still been closed exactly once, the recorded error is still
that of the first call, and a `Close` returns that recorded error and
changes nothing. -/
theorem latch_closes_once (c : Conn) (first : LatchCall) (later : List LatchCall)
    (h : c.err = none) :
    (c.latchCall first).1.closes = c.closes + 1 ∧
      (c.latchCall first).1.err = some first.recorded ∧
      (c.latchCalls (first :: later)).closes = c.closes + 1 ∧
      (c.latchCalls (first :: later)).err = some first.recorded ∧
      (c.latchCalls (first :: later)).Close =
        (c.latchCalls (first :: later), some first.recorded) := by
  have h1 := latchCall_first c first h
  have h2 : c.latchCalls (first :: later) = (c.latchCall first).1 := by
    simp only [Conn.latchCalls]
    exact latchCalls_latched later _ first.recorded (by rw [h1])
  rw [h2, h1]
  simp [Conn.Close, Conn.closeSocket]

theorem latch_closes_once_witness :
    (({ } : Conn).latchCalls [.fatal .unexpectedEOF, .close, .fatal .eof]).closes = 1 ∧
      (({ } : Conn).latchCalls [.fatal .unexpectedEOF, .close, .fatal .eof]).Close.2 =
        some .unexpectedEOF :=
  ⟨(latch_closes_once { } (.fatal .unexpectedEOF) [.close, .fatal .eof] rfl).2.2.1,
    congrArg Prod.snd
      (latch_closes_once { } (.fatal .unexpectedEOF) [.close, .fatal .eof] rfl).2.2.2.2⟩

/-! The life cycle of the server -/

theorem call_invariant (s : Server) (k : LifeCall)
    (h : s.started ≤ 1 ∧ s.listeners ≤ s.cancels + s.started) :
    (s.call k).1.started ≤ 1 ∧
      (s.call k).1.listeners ≤ (s.call k).1.cancels + (s.call k).1.started := by
  obtain ⟨h1, h2⟩ := h
  cases k with
  | listen result =>
      simp only [Server.call, Server.ListenAndServe]
      split
      · exact ⟨h1, h2⟩
      · cases result with
        | none => simp only []; omega
        | some e => simp only []; omega
  | shutdown =>
      simp only [Server.call, Server.Shutdown]
      split
      · exact ⟨h1, h2⟩
      · simp only []
        omega

theorem calls_invariant (ks : List LifeCall) (s : Server)
    (h : s.started ≤ 1 ∧ s.listeners ≤ s.cancels + s.started) :
    (s.calls ks).started ≤ 1 ∧ (s.calls ks).listeners ≤ (s.calls ks).cancels + (s.calls ks).started := by
  induction ks generalizing s with
  | nil => exact h
  | cons k ks ih => exact ih _ (call_invariant s k h)

/-- C15, as the code has it: after every sequence of `ListenAndServe` and
`Shutdown` calls on a server that was not started, the flag `started` is 0
or 1 and the listeners opened so far are at most one more than the
cancellations fired, that one being open only while the flag is set; while
the flag is set a `ListenAndServe` fails with the already-started error and
changes nothing (no listener is opened), and while it is not set a
`Shutdown` fails with `ErrServerClosed` and changes nothing (the
cancellation signal is not fired). -/
theorem lifecycle_guards (s : Server) (ks : List LifeCall)
    (h0 : s.started = 0) (hl : s.listeners = 0) :
    ((s.calls ks).started = 0 ∨ (s.calls ks).started = 1) ∧
      (s.calls ks).listeners ≤ (s.calls ks).cancels + (s.calls ks).started ∧
      ((s.calls ks).started = 1 →
        ∀ r, (s.calls ks).ListenAndServe r = (s.calls ks, some .alreadyStarted)) ∧
      ((s.calls ks).started = 0 → (s.calls ks).Shutdown = (s.calls ks, some .serverClosed)) := by
  obtain ⟨i1, i2⟩ := calls_invariant ks s (by omega)
  refine ⟨by omega, i2, ?_, ?_⟩
  · intro h r
    simp [Server.ListenAndServe, h]
  · intro h
    simp [Server.Shutdown, h]

theorem lifecycle_guards_witness :
    ((NewServer.calls [.listen none]).ListenAndServe none).2 = some .alreadyStarted ∧
      ((NewServer.calls [.listen none, .shutdown]).Shutdown).2 = some .serverClosed :=
  ⟨congrArg Prod.snd
      ((lifecycle_guards NewServer [.listen none] rfl rfl).2.2.1 rfl none),
    congrArg Prod.snd
      ((lifecycle_guards NewServer [.listen none, .shutdown] rfl rfl).2.2.2 rfl)⟩

/-- C15, as stated, fails: after `ListenAndServe` and `Shutdown` a second
`ListenAndServe` passes the guard and opens a second listener instead of
failing with the already-started error, and a second `Shutdown` after it
fires the cancellation a second time. -/
theorem restart_after_shutdown_opens_listener :
    ((NewServer.calls [.listen none, .shutdown]).ListenAndServe none).2 = none ∧
      ((NewServer.calls [.listen none, .shutdown]).ListenAndServe none).1.listeners = 2 ∧
      ((NewServer.calls [.listen none, .shutdown, .listen none]).Shutdown).2 = none ∧
      ((NewServer.calls [.listen none, .shutdown, .listen none]).Shutdown).1.cancels = 2 := by
  decide

/-- C19: when `net.Listen` fails with `e` on a server that is not started,
`ListenAndServe` returns `e`, opens no listener, starts no goroutine and
leaves the wait group as it was, but leaves the flag `started` set: every
later `ListenAndServe` fails with the already-started error, and a
`Shutdown` fires the cancellation signal and returns no error. -/
theorem ListenAndServe_bind_failure_leaves_started (s : Server) (e : Error) :
    (({ s with started := 0 }).ListenAndServe (some e)).2 = some e ∧
      (({ s with started := 0 }).ListenAndServe (some e)).1.started = 1 ∧
      (({ s with started := 0 }).ListenAndServe (some e)).1.listeners = s.listeners ∧
      (({ s with started := 0 }).ListenAndServe (some e)).1.tasks = s.tasks ∧
      (({ s with started := 0 }).ListenAndServe (some e)).1.wg = s.wg ∧
      (∀ r, ((({ s with started := 0 }).ListenAndServe (some e)).1.ListenAndServe r).2 =
        some .alreadyStarted) ∧
      ((({ s with started := 0 }).ListenAndServe (some e)).1.Shutdown).2 = none ∧
      ((({ s with started := 0 }).ListenAndServe (some e)).1.Shutdown).1.cancels =
        s.cancels + 1 := by
  simp [Server.ListenAndServe, Server.Shutdown]

/-! The grammar of lengths -/

theorem digitsVal_eq (ds : Bytes) (acc : Nat) :
    digitsVal acc ds = acc * 10 ^ ds.length + decimalValue ds := by
  induction ds generalizing acc with
  | nil => simp [digitsVal, decimalValue]
  | cons b bs ih =>
      have h1 : digitsVal acc (b :: bs) = digitsVal (acc * 10 + (b - 48)) bs := by
        simp [digitsVal]
      have h2 : decimalValue (b :: bs) = decimalValue bs + 10 ^ bs.length * (b - 48) := by
        simp [decimalValue, Nat.ofDigits_append]
      rw [h1, ih, h2, List.length_cons, pow_succ]
      ring

theorem digitsVal_zero (ds : Bytes) : digitsVal 0 ds = decimalValue ds := by
  rw [digitsVal_eq]
  simp

theorem wrapInt_step (a : Int) (d : Int) :
    wrapInt (wrapInt (wrapInt a * 10) + d) = wrapInt (a * 10 + d) := by
  unfold wrapInt
  norm_num
  omega

theorem parseLenLoop_wrap (ds : Bytes) (acc : Nat) (hd : AllDigits ds) :
    parseLenLoop ds (wrapInt acc) = (wrapInt ((digitsVal acc ds : Nat) : Int), none) := by
  induction ds generalizing acc with
  | nil => simp [parseLenLoop, digitsVal]
  | cons b bs ih =>
      have hb := hd b (List.mem_cons_self _ _)
      have hd1 : AllDigits bs := fun x hx => hd x (List.mem_cons_of_mem _ hx)
      have hnb : ¬ (b < 48 ∨ b > 57) := by omega
      have hs := wrapInt_step (acc : Int) ((b - 48 : Nat) : Int)
      have hc : (acc : Int) * 10 + ((b - 48 : Nat) : Int) = ((acc * 10 + (b - 48) : Nat) : Int) := by
        push_cast
        rfl
      simp only [parseLenLoop, hnb, if_false, hs, hc]
      rw [ih _ hd1]
      simp [digitsVal]

theorem parseLenLoop_illegal (p : Bytes) (n : Int) (h : ∃ b ∈ p, b < 48 ∨ 57 < b) :
    parseLenLoop p n = (-1, some (.protocol "illegal bytes in length")) := by
  induction p generalizing n with
  | nil => simp at h
  | cons b bs ih =>
      by_cases hb : b < 48 ∨ b > 57
      · simp [parseLenLoop, hb]
      · have h1 : ∃ x ∈ bs, x < 48 ∨ 57 < x := by
          obtain ⟨x, hx, hbad⟩ := h
          rcases List.mem_cons.mp hx with rfl | hm
          · exact absurd hbad hb
          · exact ⟨x, hm, hbad⟩
        simp only [parseLenLoop, hb, if_false]
        exact ih _ h1

theorem sentinel_iff (p : Bytes) :
    (p[0]? = some 45 ∧ p.length = 2 ∧ p[1]? = some 49) ↔ p = [45, 49] := by
  constructor
  · rintro ⟨h0, h2, h1⟩
    match p, h2 with
    | [a, b], _ =>
        simp at h0 h1
        rw [h0, h1]
  · rintro rfl
    simp

/-- C16: for every byte string `p`, `parseLen` returns an error when `p` is
empty and when `p` is not the sentinel `-1` and has a byte outside
`0`..`9`; it returns -1 with no error for the sentinel `-1`; and for a
non-empty `p` of decimal digits whose value is below 2^63 it returns that
value with no error. -/
theorem parseLen_grammar (p : Bytes) :
    (p = [] → parseLen p = (-1, some (.protocol "malformed length"))) ∧
      (p ≠ [45, 49] → (∃ b ∈ p, b < 48 ∨ 57 < b) →
        parseLen p = (-1, some (.protocol "illegal bytes in length"))) ∧
      parseLen [45, 49] = (-1, none) ∧
      (p ≠ [] → AllDigits p → decimalValue p < 2 ^ 63 →
        parseLen p = (((decimalValue p : Nat) : Int), none)) := by
  refine ⟨?_, ?_, by decide, ?_⟩
  · rintro rfl
    rfl
  · intro hs hbad
    have hne : p.length ≠ 0 := by
      obtain ⟨b, hb, -⟩ := hbad
      intro h0
      rw [List.length_eq_zero.mp h0] at hb
      simp at hb
    have hns : ¬ (p[0]? = some 45 ∧ p.length = 2 ∧ p[1]? = some 49) :=
      fun h => hs ((sentinel_iff p).mp h)
    unfold parseLen
    rw [if_neg hne, if_neg hns]
    exact parseLenLoop_illegal p 0 hbad
  · intro hne hd hv
    have hlen : p.length ≠ 0 := by simpa [List.length_eq_zero] using hne
    have hns : ¬ (p[0]? = some 45 ∧ p.length = 2 ∧ p[1]? = some 49) := by
      intro h
      rw [(sentinel_iff p).mp h] at hd
      have := hd 45 (by simp)
      omega
    unfold parseLen
    rw [if_neg hlen, if_neg hns]
    have := parseLenLoop_digits p 0 hd (by rw [digitsVal_zero]; exact hv)
    rw [digitsVal_zero] at this
    simpa using this

theorem parseLen_grammar_witness :
    parseLen (ascii "-5") = (-1, some (.protocol "illegal bytes in length")) ∧
      parseLen (ascii "0042") = (42, none) :=
  ⟨(parseLen_grammar (ascii "-5")).2.1 (by decide) (by decide),
    (parseLen_grammar (ascii "0042")).2.2.2 (by decide) (by decide)
      (by decide)⟩

/-- C17, as the code has it: for every non-empty string of decimal digits
`parseLen` returns no error and the value of the string reduced modulo 2^64
into the range of the 64-bit `int`; for a value above 2^63 - 1 that is a
wrapped-around value. -/
theorem parseLen_wraps (p : Bytes) (hne : p ≠ []) (hd : AllDigits p) :
    parseLen p = (wrapInt ((decimalValue p : Nat) : Int), none) := by
  have hlen : p.length ≠ 0 := by simpa [List.length_eq_zero] using hne
  have hns : ¬ (p[0]? = some 45 ∧ p.length = 2 ∧ p[1]? = some 49) := by
    intro h
    rw [(sentinel_iff p).mp h] at hd
    have := hd 45 (by simp)
    omega
  unfold parseLen
  rw [if_neg hlen, if_neg hns]
  have h0 : (0 : Int) = wrapInt ((0 : Nat) : Int) := by decide
  rw [h0, parseLenLoop_wrap p 0 hd, digitsVal_zero]

theorem parseLen_wraps_witness :
    parseLen (ascii "9223372036854775808") =
      (wrapInt ((decimalValue (ascii "9223372036854775808") : Nat) : Int), none) :=
  parseLen_wraps (ascii "9223372036854775808") (by decide) (by decide)

set_option maxRecDepth 8000 in
/-- C17, as stated, fails: the token 18446744073709551616, whose value is
2^64, is parsed to 0 with no error, and 9223372036854775808, whose value is
2^63, to the negative number -2^63 with no error. -/
theorem parseLen_overflow_no_error :
    parseLen (ascii "18446744073709551616") = (0, none) ∧
      parseLen (ascii "9223372036854775808") = (-9223372036854775808, none) := by
  decide

/-! Replies that are not of the five types -/

/-- C18, as the code has it: on a writer that takes bytes `WriteReply`
returns no error for every value of the five reply types; for a value of
any other type it writes nothing and returns the unsupported-type error;
for the nil value it writes nothing and returns no error. -/
theorem WriteReply_errors (c : Conn) (hw : c.writable) :
    (∀ s, (c.WriteReply (.status s)).2 = none) ∧
      (∀ s, (c.WriteReply (.error s)).2 = none) ∧
      (∀ n, (c.WriteReply (.integer n)).2 = none) ∧
      (∀ p, (c.WriteReply (.bulk p)).2 = none) ∧
      (∀ ps, (c.WriteReply (.multiBulk ps)).2 = none) ∧
      (∀ ty, c.WriteReply (.unsupported ty) = (c, some (.unsupportedReply ty))) ∧
      c.WriteReply .nil = (c, none) :=
  ⟨fun _ => (bwWrite_ok c _ hw).1, fun _ => (bwWrite_ok c _ hw).1,
    fun _ => (bwWrite_ok c _ hw).1, fun p => (writeBulk_ok c p hw).1,
    fun ps => (multiBulk_wrote c ps hw).1, fun _ => rfl, rfl⟩

theorem WriteReply_errors_witness :
    (({ } : Conn).WriteReply (.unsupported "int")) = ({ }, some (.unsupportedReply "int")) :=
  (WriteReply_errors { } (by decide)).2.2.2.2.2.1 "int"

/-- C18, as stated, fails: for the nil value `WriteReply` returns no error,
having written nothing. -/
theorem WriteReply_nil_no_error :
    (({ } : Conn).WriteReply .nil) = ({ }, none) := by
  decide

/-! Frames that break off or go wrong inside the arguments -/

theorem readArgs_prefix (as : List Bytes) (c : Conn) (j : Nat) (acc : List Slice) (tail : Bytes)
    (mem : Nat) (hl : ∀ a ∈ as, a.length ≤ maxAlloc ∧ a.length ≤ mem)
    (hrd : c.rd = (as.map frameArg).flatten ++ tail) :
    c.readArgs (as.length + j) acc mem =
      ({ c with rd := tail }).readArgs j (acc ++ as.map some) mem := by
  induction as generalizing c acc with
  | nil =>
      simp at hrd
      cases c
      simp_all
  | cons a as ih =>
      have ha := hl a (List.mem_cons_self _ _)
      have hl1 : ∀ x ∈ as, x.length ≤ maxAlloc ∧ x.length ≤ mem :=
        fun x hx => hl x (List.mem_cons_of_mem _ hx)
      have ha63 : a.length < 2 ^ 63 := by
        have : maxAlloc < 2 ^ 63 := by decide
        omega
      have h1 : c.rd = [36] ++ formatNat a.length ++ crlf ++
          (a ++ crlf ++ ((as.map frameArg).flatten ++ tail)) := by
        rw [hrd]
        simp [frameArg]
      have r1 := readLen_header c a.length _ ha63 h1
      have r2 := readFull_exact { c with rd := a ++ crlf ++ ((as.map frameArg).flatten ++ tail) }
        a (crlf ++ ((as.map frameArg).flatten ++ tail)) (by simp)
      have r3 := readLine_line
        { c with rd := crlf ++ ((as.map frameArg).flatten ++ tail) } []
        ((as.map frameArg).flatten ++ tail) (by simp) (by simp)
      have r4 := ih { c with rd := (as.map frameArg).flatten ++ tail } (acc ++ [some a]) hl1 rfl
      have hcond : ¬ ((a.length : Int) < 0 ∨ (a.length : Int) > (maxAlloc : Int)) := by
        omega
      have hmem : ¬ ((a.length : Int) > (mem : Int)) := by omega
      have hk : (a :: as).length + j = (as.length + j) + 1 := by
        simp only [List.length_cons]
        omega
      rw [hk]
      simp only [Conn.readArgs, r1, hcond, hmem, if_false, Int.toNat_ofNat]
      simp only [] at r2 r3 r4
      rw [r2]
      simp only []
      rw [r3]
      simp only [List.length_nil, ne_eq, not_true_eq_false, if_false]
      rw [r4]
      simp

theorem readArgs_negative (c : Conn) (j : Nat) (acc : List Slice) (rest : Bytes) (mem : Nat)
    (hrd : c.rd = [36, 45, 49] ++ crlf ++ rest) :
    c.readArgs (j + 1) acc mem =
      ({ c with rd := rest }, .panic "runtime error: makeslice: len out of range") := by
  have r1 := readLine_line c [36, 45, 49] rest (by decide) hrd
  have pm : parseLen [45, 49] = (-1, none) := by decide
  simp [Conn.readArgs, Conn.readLen, r1, pm]

theorem readArgs_trunc_line (c : Conn) (j : Nat) (acc : List Slice) (mem : Nat)
    (h : splitLine c.rd = none) :
    c.readArgs (j + 1) acc mem = ({ c with rd := [] }, .ret (.error c.rdEnd)) := by
  simp [Conn.readArgs, Conn.readLen, Conn.readLine, h]

theorem readArgs_trunc_payload (c : Conn) (j : Nat) (acc : List Slice) (L : Nat)
    (payload : Bytes) (mem : Nat) (hL : L ≤ maxAlloc) (hm : L ≤ mem) (hp : payload.length < L)
    (hrd : c.rd = [36] ++ formatNat L ++ crlf ++ payload) :
    c.readArgs (j + 1) acc mem =
      ({ c with rd := [] },
        .ret (.error (if 0 < payload.length ∧ c.rdEnd = .eof then .unexpectedEOF else c.rdEnd))) := by
  have hL63 : L < 2 ^ 63 := by
    have : maxAlloc < 2 ^ 63 := by decide
    omega
  have r1 := readLen_header c L payload hL63 hrd
  have hcond : ¬ ((L : Int) < 0 ∨ (L : Int) > (maxAlloc : Int)) := by omega
  have hmem : ¬ ((L : Int) > (mem : Int)) := by omega
  have hnl : ¬ L ≤ payload.length := by omega
  simp only [Conn.readArgs, r1, hcond, hmem, if_false, Int.toNat_ofNat]
  simp [Conn.readFull, hnl]

theorem readArgs_trunc_terminator (c : Conn) (j : Nat) (acc : List Slice) (a t : Bytes)
    (mem : Nat) (hL : a.length ≤ maxAlloc) (hm : a.length ≤ mem) (ht : splitLine t = none)
    (hrd : c.rd = [36] ++ formatNat a.length ++ crlf ++ (a ++ t)) :
    c.readArgs (j + 1) acc mem = ({ c with rd := [] }, .ret (.error c.rdEnd)) := by
  have hL63 : a.length < 2 ^ 63 := by
    have : maxAlloc < 2 ^ 63 := by decide
    omega
  have r1 := readLen_header c a.length (a ++ t) hL63 hrd
  have r2 := readFull_exact { c with rd := a ++ t } a t rfl
  have hcond : ¬ ((a.length : Int) < 0 ∨ (a.length : Int) > (maxAlloc : Int)) := by omega
  have hmem : ¬ ((a.length : Int) > (mem : Int)) := by omega
  simp only [Conn.readArgs, r1, hcond, hmem, if_false, Int.toNat_ofNat]
  simp only [] at r2
  rw [r2]
  simp [Conn.readLine, ht]

theorem readRequest_header_error (c c2 : Conn) (n : Nat) (body : Bytes) (e : Error) (mem : Nat)
    (hn : n < 2 ^ 63) (hrd : c.rd = [42] ++ formatNat n ++ crlf ++ body)
    (h : ({ c with rd := body }).readArgs n [] mem = (c2, .ret (.error e))) :
    c.readRequest mem = (c2, .ret (none, some e)) := by
  have hlf : 10 ∉ [42] ++ formatNat n := by
    have := allDigits_no_lf _ (formatNat_allDigits n)
    simp [this]
  have r1 := readLine_line c _ _ hlf hrd
  have hneg : ¬ ((n : Int) < 0) := by omega
  unfold Conn.readRequest
  rw [r1]
  simp only [List.singleton_append, List.length_cons, List.head?_cons, List.drop_succ_cons,
    List.drop_zero, parseLen_formatNat _ hn]
  simp [hneg, h]

theorem readRequest_header_panic (c c2 : Conn) (n : Nat) (body : Bytes) (msg : String)
    (mem : Nat) (hn : n < 2 ^ 63) (hrd : c.rd = [42] ++ formatNat n ++ crlf ++ body)
    (h : ({ c with rd := body }).readArgs n [] mem = (c2, .panic msg)) :
    c.readRequest mem = (c2, .panic msg) := by
  have hlf : 10 ∉ [42] ++ formatNat n := by
    have := allDigits_no_lf _ (formatNat_allDigits n)
    simp [this]
  have r1 := readLine_line c _ _ hlf hrd
  have hneg : ¬ ((n : Int) < 0) := by omega
  unfold Conn.readRequest
  rw [r1]
  simp only [List.singleton_append, List.length_cons, List.head?_cons, List.drop_succ_cons,
    List.drop_zero, parseLen_formatNat _ hn]
  simp [hneg, h]

/-! A negative argument length -/

/-- C20: after a valid array header of count 1, the argument length header
`$-1` makes `readRequest` panic: `parseLen` returns -1 with no error and
`make([]byte, -1)` is out of range. The same happens after a complete
first argument of a header of count 2. -/
theorem readRequest_negative_length_panics (rest : Bytes) :
    (({ rd := ascii "*1\r\n$-1\r\n" ++ rest } : Conn).readRequest).2 =
        .panic "runtime error: makeslice: len out of range" ∧
      (({ rd := ascii "*2\r\n$3\r\nGET\r\n$-1\r\n" ++ rest } : Conn).readRequest).2 =
        .panic "runtime error: makeslice: len out of range" := by
  constructor
  · have h := readArgs_negative { rd := ascii "$-1\r\n" ++ rest } 0 [] rest maxAlloc rfl
    rw [readRequest_header_panic { rd := ascii "*1\r\n$-1\r\n" ++ rest } _ 1
      (ascii "$-1\r\n" ++ rest) _ maxAlloc (by decide) rfl h]
  · have h1 := readArgs_prefix [ascii "GET"]
      { rd := ascii "$3\r\nGET\r\n$-1\r\n" ++ rest } 1 [] (ascii "$-1\r\n" ++ rest)
      maxAlloc (by decide) rfl
    have h2 := readArgs_negative { rd := ascii "$-1\r\n" ++ rest } 0
      ([] ++ [ascii "GET"].map some) rest maxAlloc rfl
    rw [readRequest_header_panic { rd := ascii "*2\r\n$3\r\nGET\r\n$-1\r\n" ++ rest } _ 2
      (ascii "$3\r\nGET\r\n$-1\r\n" ++ rest) _ maxAlloc (by decide) rfl (h1.trans h2)]

/-! A frame that breaks off inside an argument -/

theorem handlePass_error (toUpper : GoString → GoString) (s : Server) (c c1 : Conn) (e : Error)
    (mem : Nat) (h : c.readRequest mem = (c1, .ret (none, some e))) :
    (s.handlePass toUpper c mem).ctl = .exit ∧ (s.handlePass toUpper c mem).invoked = none ∧
      (s.handlePass toUpper c mem).conn.sent = c1.sent ∧
      (s.handlePass toUpper c mem).conn.wbuf = c1.wbuf := by
  simp only [Server.handlePass, h]
  by_cases he : e = .eof
  · simp [he]
  · simp only [he, if_false, true_and]
    constructor <;>
      · simp only [Conn.fatal]
        split <;> rfl

/-- C12, as the code has it: for every frame that breaks off inside an
argument whose buffer the runtime makes, that is a valid array header of
count `n`, fewer than `n` complete arguments, a length header `$L` with `L`
at most `maxAlloc` and at most `mem`, the largest buffer that the memory of
the process still holds, and fewer than `L` payload bytes before the stream
ends, `readRequest` returns no request and an error (`io.ErrUnexpectedEOF`
when the stream ends in `io.EOF` after at least one payload byte, the error
of the stream otherwise), and the serve loop leaves the loop for that
connection without invoking a handler and without a byte written to the
buffer or the socket. -/
theorem truncated_argument_ends_connection (toUpper : GoString → GoString) (s : Server)
    (c : Conn) (mem n L : Nat) (done : List Bytes) (payload : Bytes)
    (hn : n < 2 ^ 63) (hk : done.length < n)
    (hd : ∀ a ∈ done, a.length ≤ maxAlloc ∧ a.length ≤ mem)
    (hL : L ≤ maxAlloc) (hm : L ≤ mem) (hp : payload.length < L)
    (hrd : c.rd = [42] ++ formatNat n ++ crlf ++
      ((done.map frameArg).flatten ++ ([36] ++ formatNat L ++ crlf ++ payload))) :
    c.readRequest mem = ({ c with rd := [] },
        .ret (none, some (if 0 < payload.length ∧ c.rdEnd = .eof then .unexpectedEOF
          else c.rdEnd))) ∧
      (s.handlePass toUpper c mem).ctl = .exit ∧
      (s.handlePass toUpper c mem).invoked = none ∧
      (s.handlePass toUpper c mem).conn.sent = c.sent ∧
      (s.handlePass toUpper c mem).conn.wbuf = c.wbuf ∧
      (∀ (ctxDone : Nat → Bool) (fuel i : Nat) (log : List Request), ctxDone i = false →
        s.handle toUpper ctxDone (fuel + 1) i c log mem =
          some { conn := (s.handlePass toUpper c mem).conn, invoked := log,
                 panicked := none }) := by
  obtain ⟨j, hj⟩ : ∃ j, n = done.length + (j + 1) := ⟨n - done.length - 1, by omega⟩
  have h1 := readArgs_prefix done
    { c with rd := (done.map frameArg).flatten ++ ([36] ++ formatNat L ++ crlf ++ payload) }
    (j + 1) [] ([36] ++ formatNat L ++ crlf ++ payload) mem hd rfl
  have h2 := readArgs_trunc_payload
    { c with rd := [36] ++ formatNat L ++ crlf ++ payload } j ([] ++ done.map some) L payload
    mem hL hm hp rfl
  simp only [] at h1 h2
  rw [← hj] at h1
  have hR := readRequest_header_error c _ n _ _ mem hn hrd (h1.trans h2)
  have hP := handlePass_error toUpper s c _ _ mem hR
  refine ⟨hR, hP.1, hP.2.1, hP.2.2.1, hP.2.2.2, ?_⟩
  intro ctxDone fuel i log hctx
  conv_lhs => unfold Server.handle
  simp [hctx, hP.1, hP.2.1]

theorem truncated_argument_ends_connection_witness :
    (({ rd := ascii "*2\r\n$3\r\nGET\r\n$5\r\nabc" } : Conn).readRequest 5).2 =
        .ret (none, some .unexpectedEOF) ∧
      (Server.handlePass asciiUpper NewServer
        { rd := ascii "*2\r\n$3\r\nGET\r\n$5\r\nabc" } 5).ctl = .exit :=
  ⟨congrArg Prod.snd
      (truncated_argument_ends_connection asciiUpper NewServer
        { rd := ascii "*2\r\n$3\r\nGET\r\n$5\r\nabc" } 5 2 5 [ascii "GET"] (ascii "abc")
        (by decide) (by decide) (by decide) (by decide) (by decide) (by decide)
        (by decide)).1,
    (truncated_argument_ends_connection asciiUpper NewServer
        { rd := ascii "*2\r\n$3\r\nGET\r\n$5\r\nabc" } 5 2 5 [ascii "GET"] (ascii "abc")
        (by decide) (by decide) (by decide) (by decide) (by decide) (by decide)
        (by decide)).2.1⟩

set_option maxRecDepth 8000 in
/-- C12, as stated, fails: a frame that declares `$281474976710657` and
breaks off after 3 payload bytes makes `readRequest` panic in `make`, before
a payload byte is read; a frame that declares `$5` and breaks off after 3
bytes stops the process with the fatal out-of-memory error when the memory
holds no buffer of 5 bytes; and the header `$18446744073709551619`, followed
by the 3 bytes `abc`, CR LF and the end of the stream, is read as the length
3: a request is returned and the serve loop replies to it. -/
theorem truncated_argument_faults_or_replies :
    (({ rd := ascii "*1\r\n$281474976710657\r\nabc" } : Conn).readRequest).2 =
        .panic "runtime error: makeslice: len out of range" ∧
      (({ rd := ascii "*1\r\n$5\r\nabc" } : Conn).readRequest 4).2 =
        .panic "fatal error: runtime: out of memory" ∧
      (({ rd := ascii "*1\r\n$18446744073709551619\r\nabc\r\n" } : Conn).readRequest).2 =
        .ret (some { Command := ascii "abc", Args := [] }, none) ∧
      (Server.handlePass asciiUpper NewServer
        { rd := ascii "*1\r\n$18446744073709551619\r\nabc\r\n" }).conn.sent =
        ascii "-unknown command: abc\r\n" := by
  decide

/-! The end of the stream -/

theorem splitLine_none (l : Bytes) (h : 10 ∉ l) : splitLine l = none := by
  induction l with
  | nil => rfl
  | cons b bs ih =>
      have hb : b ≠ 10 := fun e => h (e ▸ List.mem_cons_self _ _)
      have hbs : 10 ∉ bs := fun m => h (List.mem_cons_of_mem _ m)
      simp [splitLine, hb, ih hbs]

theorem cut_line_no_lf (x p d : Bytes) (hx : 10 ∉ x) (hd : d ≠ [])
    (h : x ++ crlf = p ++ d) : 10 ∉ p := by
  rcases List.append_eq_append_iff.mp h with ⟨a', hp, ha⟩ | ⟨c', hxp, -⟩
  · subst hp
    match a', ha with
    | [], _ => simpa using hx
    | [b], ha =>
        simp [crlf] at ha
        obtain ⟨hb, -⟩ := ha
        subst hb
        simp [hx]
    | b :: b2 :: bs, ha =>
        simp [crlf] at ha
        exact absurd ha.2.2.2 hd
  · subst hxp
    intro hm
    exact hx (List.mem_append_left _ hm)

theorem frameArg_eq (a : Bytes) : frameArg a = argHeader a ++ (a ++ crlf) := by
  simp [frameArg, argHeader]

theorem readArgs_cut (as : List Bytes) (c : Conn) (acc : List Slice) (r : Bytes) (mem : Nat)
    (heof : c.rdEnd = .eof)
    (hl : ∀ a ∈ as, a.length ≤ maxAlloc ∧ a.length ≤ mem)
    (hcut : (as.map frameArg).flatten = c.rd ++ r) (hr : r ≠ []) :
    c.readArgs as.length acc mem = ({ c with rd := [] }, .ret (.error .eof)) ∨
      (c.readArgs as.length acc mem = ({ c with rd := [] }, .ret (.error .unexpectedEOF)) ∧
        ∃ (done : List Bytes) (a : Bytes) (more : List Bytes) (payload : Bytes),
          as = done ++ a :: more ∧
            c.rd = (done.map frameArg).flatten ++ (argHeader a ++ payload) ∧
            payload ≠ [] ∧ payload.length < a.length) := by
  induction as generalizing c acc with
  | nil =>
      simp at hcut
      exact absurd hcut.2 hr
  | cons a as ih =>
      have ha := hl a (List.mem_cons_self _ _)
      have hl1 : ∀ x ∈ as, x.length ≤ maxAlloc ∧ x.length ≤ mem :=
        fun x hx => hl x (List.mem_cons_of_mem _ hx)
      have hcut1 : frameArg a ++ (as.map frameArg).flatten = c.rd ++ r := by
        simpa using hcut
      have hlen : (a :: as).length = as.length + 1 := rfl
      -- the cut lies behind the first argument, or inside it
      have tri : (∃ q, c.rd = frameArg a ++ q ∧ (as.map frameArg).flatten = q ++ r) ∨
          (∃ d, d ≠ [] ∧ frameArg a = c.rd ++ d) := by
        rcases List.append_eq_append_iff.mp hcut1 with ⟨q, h1, h2⟩ | ⟨d, h1, h2⟩
        · exact Or.inl ⟨q, h1, h2⟩
        · by_cases hd : d = []
          · subst hd
            refine Or.inl ⟨[], ?_, ?_⟩
            · simpa using h1.symm
            · simpa using h2.symm
          · exact Or.inr ⟨d, hd, h1⟩
      rcases tri with ⟨q, hq, hrest⟩ | ⟨d, hd, hfa⟩
      · have hp := readArgs_prefix [a] c as.length acc q mem
          (fun x hx => by
            rw [List.mem_singleton] at hx
            subst hx
            exact ha)
          (by simpa using hq)
        have hk : [a].length + as.length = as.length + 1 := by
          simp only [List.length_singleton]
          omega
        rw [hk] at hp
        rw [hlen, hp]
        rcases ih { c with rd := q } (acc ++ [a].map some) heof hl1 hrest with h | ⟨h, dn, b, more, payload, e1, e2, e3, e4⟩
        · exact Or.inl h
        · refine Or.inr ⟨h, a :: dn, b, more, payload, ?_, ?_, e3, e4⟩
          · rw [e1]
            rfl
          · simp only [] at e2
            rw [hq, e2]
            simp
      · have hfa1 : argHeader a ++ (a ++ crlf) = c.rd ++ d := by
          rw [← frameArg_eq]
          exact hfa
        have tri2 : (∃ q, c.rd = argHeader a ++ q ∧ a ++ crlf = q ++ d) ∨
            (∃ d2, d2 ≠ [] ∧ argHeader a = c.rd ++ d2) := by
          rcases List.append_eq_append_iff.mp hfa1 with ⟨q, h1, h2⟩ | ⟨d2, h1, h2⟩
          · exact Or.inl ⟨q, h1, h2⟩
          · by_cases hd2 : d2 = []
            · subst hd2
              refine Or.inl ⟨[], ?_, ?_⟩
              · simpa using h1.symm
              · simpa using h2.symm
            · exact Or.inr ⟨d2, hd2, h1⟩
        rcases tri2 with ⟨q, hq, hpay⟩ | ⟨d2, hd2, hhd⟩
        · have tri3 : (∃ t, q = a ++ t ∧ crlf = t ++ d) ∨ (∃ e, e ≠ [] ∧ a = q ++ e) := by
            rcases List.append_eq_append_iff.mp hpay with ⟨t, h1, h2⟩ | ⟨e, h1, h2⟩
            · exact Or.inl ⟨t, h1, h2⟩
            · by_cases he : e = []
              · subst he
                refine Or.inl ⟨[], ?_, ?_⟩
                · simpa using h1.symm
                · simpa using h2.symm
              · exact Or.inr ⟨e, he, h1⟩
          rcases tri3 with ⟨t, ht, hcr⟩ | ⟨e, he, hae⟩
          · have hnl : 10 ∉ t := cut_line_no_lf [] t d (by simp) hd (by simpa using hcr)
            have hrd : c.rd = [36] ++ formatNat a.length ++ crlf ++ (a ++ t) := by
              rw [hq, ht]
              rfl
            have := readArgs_trunc_terminator c as.length acc a t mem ha.1 ha.2
              (splitLine_none _ hnl) hrd
            rw [hlen, this, heof]
            exact Or.inl rfl
          · have hlt : q.length < a.length := by
              have hlen2 : a.length = q.length + e.length := by
                rw [hae, List.length_append]
              have : 0 < e.length := List.length_pos.mpr he
              omega
            have hrd : c.rd = [36] ++ formatNat a.length ++ crlf ++ q := by
              rw [hq]
              rfl
            have := readArgs_trunc_payload c as.length acc a.length q mem ha.1 ha.2 hlt hrd
            rw [hlen, this, heof]
            by_cases hq0 : q = []
            · subst hq0
              exact Or.inl (by simp)
            · have hpos : 0 < q.length := List.length_pos.mpr hq0
              refine Or.inr ⟨by simp [hpos], [], a, as, q, rfl, ?_, hq0, hlt⟩
              simpa using hq
        · have hnl : 10 ∉ c.rd := by
            have hx : 10 ∉ [36] ++ formatNat a.length := by
              have := allDigits_no_lf _ (formatNat_allDigits a.length)
              simp [this]
            exact cut_line_no_lf ([36] ++ formatNat a.length) c.rd d2 hx hd2 hhd
          have := readArgs_trunc_line c as.length acc mem (splitLine_none _ hnl)
          rw [hlen, this, heof]
          exact Or.inl rfl

theorem readRequest_cut (c : Conn) (mem : Nat) (args : List Bytes) (rest : Bytes)
    (heof : c.rdEnd = .eof) (hn : args.length < 2 ^ 63)
    (hl : ∀ a ∈ args, a.length ≤ maxAlloc ∧ a.length ≤ mem)
    (hcut : requestFrame args = c.rd ++ rest) (hrest : rest ≠ []) :
    c.readRequest mem = ({ c with rd := [] }, .ret (none, some .eof)) ∨
      (c.readRequest mem = ({ c with rd := [] }, .ret (none, some .unexpectedEOF)) ∧
        CutInPayload args c.rd) := by
  have hcut1 : arrayHeader args.length ++ (args.map frameArg).flatten = c.rd ++ rest := by
    rw [← hcut]
    rfl
  have tri : (∃ q, c.rd = arrayHeader args.length ++ q ∧ (args.map frameArg).flatten = q ++ rest) ∨
      (∃ d, d ≠ [] ∧ arrayHeader args.length = c.rd ++ d) := by
    rcases List.append_eq_append_iff.mp hcut1 with ⟨q, h1, h2⟩ | ⟨d, h1, h2⟩
    · exact Or.inl ⟨q, h1, h2⟩
    · by_cases hd : d = []
      · subst hd
        refine Or.inl ⟨[], ?_, ?_⟩
        · simpa using h1.symm
        · simpa using h2.symm
      · exact Or.inr ⟨d, hd, h1⟩
  rcases tri with ⟨q, hq, hfr⟩ | ⟨d, hd, hhd⟩
  · have hrd : c.rd = [42] ++ formatNat args.length ++ crlf ++ q := by
      rw [hq]
      rfl
    rcases readArgs_cut args { c with rd := q } [] rest mem heof hl hfr hrest with
      h | ⟨h, dn, a, more, payload, e1, e2, e3, e4⟩
    · exact Or.inl (readRequest_header_error c _ args.length q _ mem hn hrd h)
    · refine Or.inr ⟨readRequest_header_error c _ args.length q _ mem hn hrd h,
        dn, a, more, payload, e1, ?_, e3, e4⟩
      simp only [] at e2
      rw [hq, e2]
  · have hnl : 10 ∉ c.rd := by
      have hx : 10 ∉ [42] ++ formatNat args.length := by
        have := allDigits_no_lf _ (formatNat_allDigits args.length)
        simp [this]
      exact cut_line_no_lf ([42] ++ formatNat args.length) c.rd d hx hd hhd
    exact Or.inl (by simp [Conn.readRequest, Conn.readLine, splitLine_none _ hnl, heof])

theorem readRequest_cut_in_payload (c : Conn) (mem : Nat) (args : List Bytes)
    (heof : c.rdEnd = .eof) (hn : args.length < 2 ^ 63)
    (hl : ∀ a ∈ args, a.length ≤ maxAlloc ∧ a.length ≤ mem)
    (h : CutInPayload args c.rd) :
    c.readRequest mem = ({ c with rd := [] }, .ret (none, some .unexpectedEOF)) := by
  obtain ⟨dn, a, more, payload, e1, e2, e3, e4⟩ := h
  have hdn : ∀ x ∈ dn, x.length ≤ maxAlloc ∧ x.length ≤ mem := by
    intro x hx
    exact hl x (by rw [e1]; exact List.mem_append_left _ hx)
  have ha : a.length ≤ maxAlloc ∧ a.length ≤ mem :=
    hl a (by rw [e1]; exact List.mem_append_right _ (List.mem_cons_self _ _))
  have hlen : args.length = dn.length + (more.length + 1) := by
    rw [e1]
    simp
  have h1 := readArgs_prefix dn
    { c with rd := (dn.map frameArg).flatten ++ (argHeader a ++ payload) }
    (more.length + 1) [] (argHeader a ++ payload) mem hdn rfl
  have h2 := readArgs_trunc_payload { c with rd := argHeader a ++ payload } more.length
    ([] ++ dn.map some) a.length payload mem ha.1 ha.2 e4 rfl
  simp only [] at h1 h2
  rw [← hlen] at h1
  have hpos : 0 < payload.length := List.length_pos.mpr e3
  have hR := readRequest_header_error c _ args.length _ _ mem hn
    (by rw [e2]; rfl) (h1.trans h2)
  rw [hR]
  simp [hpos, heof]

/-- C11, as the code has it: on a stream that ends in `io.EOF` after a
proper part of a well-formed request frame whose argument buffers the
runtime makes, `readRequest` uses up the stream and returns
`io.ErrUnexpectedEOF` exactly when the stream ends inside the payload of an
argument, after at least one byte of it and before its last; everywhere
else, be it with no byte consumed, inside the array header, inside or in
place of the length header of an argument, before the first byte of a
payload, or inside the CR LF after a payload, it returns `io.EOF`. -/
theorem readRequest_end_of_stream (c : Conn) (mem : Nat) (args : List Bytes) (rest : Bytes)
    (heof : c.rdEnd = .eof) (hn : args.length < 2 ^ 63)
    (hl : ∀ a ∈ args, a.length ≤ maxAlloc ∧ a.length ≤ mem)
    (hcut : requestFrame args = c.rd ++ rest) (hrest : rest ≠ []) :
    (c.rd = [] → c.readRequest mem = ({ c with rd := [] }, .ret (none, some .eof))) ∧
      (CutInPayload args c.rd →
        c.readRequest mem = ({ c with rd := [] }, .ret (none, some .unexpectedEOF))) ∧
      (¬ CutInPayload args c.rd →
        c.readRequest mem = ({ c with rd := [] }, .ret (none, some .eof))) := by
  have key := readRequest_cut c mem args rest heof hn hl hcut hrest
  have h3 : ¬ CutInPayload args c.rd →
      c.readRequest mem = ({ c with rd := [] }, .ret (none, some .eof)) := by
    intro hno
    rcases key with h | ⟨-, hc⟩
    · exact h
    · exact absurd hc hno
  refine ⟨?_, readRequest_cut_in_payload c mem args heof hn hl, h3⟩
  intro h0
  apply h3
  rintro ⟨dn, a, more, payload, -, e2, -, -⟩
  rw [h0] at e2
  simp [arrayHeader] at e2

theorem readRequest_end_of_stream_witness :
    (({ rd := ascii "*1\r\n$5\r\nabc" } : Conn).readRequest 5) =
        ({ }, .ret (none, some .unexpectedEOF)) ∧
      (({ } : Conn).readRequest 5) = ({ }, .ret (none, some .eof)) :=
  ⟨(readRequest_end_of_stream { rd := ascii "*1\r\n$5\r\nabc" } 5 [ascii "abcde"]
      (ascii "de\r\n") rfl (by decide) (by decide) (by decide) (by decide)).2.1
      ⟨[], ascii "abcde", [], ascii "abc", rfl, by decide, by decide, by decide⟩,
    (readRequest_end_of_stream { } 5 [ascii "abcde"]
      (ascii "*1\r\n$5\r\nabcde\r\n") rfl (by decide) (by decide) (by decide)
      (by decide)).1 rfl⟩

/-- C11, as stated, fails: `readRequest` returns `io.EOF`, the value that
the serve loop takes for a quiet close by the peer, on streams that end
after bytes of a frame were consumed: inside the array header, with the
argument missing, with no byte of the payload arrived, and inside the CR LF
after a payload. -/
theorem readRequest_eof_after_partial_frame :
    (({ rd := ascii "*1\r" } : Conn).readRequest) = ({ }, .ret (none, some .eof)) ∧
      (({ rd := ascii "*1\r\n" } : Conn).readRequest) = ({ }, .ret (none, some .eof)) ∧
      (({ rd := ascii "*1\r\n$5\r\n" } : Conn).readRequest) = ({ }, .ret (none, some .eof)) ∧
      (({ rd := ascii "*1\r\n$3\r\nabc\r" } : Conn).readRequest) =
        ({ }, .ret (none, some .eof)) := by
  decide

/-! Operations on a latched connection -/

theorem latchKept_refl (c : Conn) : c.latchKept c := ⟨rfl, rfl, fun _ => rfl⟩

theorem latchKept_trans {c c1 c2 : Conn} (h1 : c.latchKept c1) (h2 : c1.latchKept c2) :
    c.latchKept c2 := by
  obtain ⟨e1, k1, s1⟩ := h1
  obtain ⟨e2, k2, s2⟩ := h2
  refine ⟨e2.trans e1, k2.trans k1, fun h => ?_⟩
  rw [s2 (by omega), s1 h]

theorem sockWrite_keeps (c : Conn) (p : Bytes) : c.latchKept (c.sockWrite p).1 := by
  unfold Conn.sockWrite
  split
  · exact latchKept_refl c
  · split
    · exact latchKept_refl c
    · exact ⟨rfl, rfl, fun h => by contradiction⟩

theorem bwFlush_keeps (c : Conn) : c.latchKept c.bwFlush.1 := by
  unfold Conn.bwFlush
  split
  · exact latchKept_refl c
  · split
    · exact latchKept_refl c
    · have h := sockWrite_keeps c c.wbuf
      revert h
      generalize c.sockWrite c.wbuf = r
      rcases r with ⟨c1, _ | e⟩ <;> intro h <;> exact h

theorem bwWrite_keeps (c : Conn) (p : Bytes) : c.latchKept (c.bwWrite p).1 := by
  unfold Conn.bwWrite
  split
  · exact latchKept_refl c
  · split
    · exact latchKept_refl c
    · split
      · have h := sockWrite_keeps c p
        revert h
        generalize c.sockWrite p = r
        rcases r with ⟨c1, _ | e⟩ <;> intro h <;> exact h
      · simp only []
        have h1 : c.latchKept
            (Conn.bwFlush { c with wbuf := c.wbuf ++ p.take (bufSize - c.wbuf.length) }).1 :=
          bwFlush_keeps { c with wbuf := c.wbuf ++ p.take (bufSize - c.wbuf.length) }
        revert h1
        generalize Conn.bwFlush { c with wbuf := c.wbuf ++ p.take (bufSize - c.wbuf.length) } = r1
        rcases r1 with ⟨c1, _ | e⟩
        · intro h1
          simp only []
          split
          · exact h1
          · have h2 := sockWrite_keeps c1 (p.drop (bufSize - c.wbuf.length))
            revert h2
            generalize c1.sockWrite (p.drop (bufSize - c.wbuf.length)) = r2
            rcases r2 with ⟨c2, _ | e⟩ <;> intro h2 <;> exact latchKept_trans h1 h2
        · intro h1
          exact h1

theorem writeBulk_keeps (c : Conn) (v : Slice) : c.latchKept (c.writeBulk v).1 := by
  cases v <;> exact bwWrite_keeps c _

theorem writeBulks_keeps (vs : List Slice) (c : Conn) : c.latchKept (c.writeBulks vs).1 := by
  induction vs generalizing c with
  | nil => exact latchKept_refl c
  | cons v vs ih =>
      have h1 := writeBulk_keeps c v
      unfold Conn.writeBulks
      revert h1
      generalize c.writeBulk v = r
      rcases r with ⟨c1, _ | e⟩
      · intro h1
        exact latchKept_trans h1 (ih c1)
      · intro h1
        exact h1

theorem WriteReply_keeps (c : Conn) (r : Reply) : c.latchKept (c.WriteReply r).1 := by
  cases r with
  | status s => exact bwWrite_keeps c _
  | error s => exact bwWrite_keeps c _
  | integer n => exact bwWrite_keeps c _
  | bulk p => exact writeBulk_keeps c p
  | multiBulk ps =>
      have h1 := bwWrite_keeps c ([42] ++ itoa ps.length ++ ascii "\r\n")
      simp only [Conn.WriteReply]
      revert h1
      generalize c.bwWrite ([42] ++ itoa ps.length ++ ascii "\r\n") = r
      rcases r with ⟨c1, _ | e⟩
      · intro h1
        exact latchKept_trans h1 (writeBulks_keeps ps c1)
      · intro h1
        exact h1
  | nil => exact latchKept_refl c
  | unsupported ty => exact latchKept_refl c

theorem Flush_keeps (c : Conn) (e : Error) (he : c.err = some e) : c.latchKept c.Flush.1 := by
  have h1 := bwFlush_keeps c
  unfold Conn.Flush
  revert h1
  generalize c.bwFlush = r
  rcases r with ⟨c1, _ | e1⟩
  · intro h1
    exact h1
  · intro h1
    have h2 : c1.err = some e := h1.1.trans he
    simp only [Conn.fatal, h2]
    exact h1

theorem Flush_closed_fails (c : Conn) (hc : 0 < c.closes) (hb : c.wbuf ≠ []) :
    c.Flush.2 ≠ none := by
  obtain ⟨err, closes, closeErr, rd, rdEnd, rdBuffered, wbuf, bwErr, sent, sockWErr⟩ := c
  simp only at hc hb
  cases bwErr with
  | some e => simp [Conn.Flush, Conn.bwFlush]
  | none => simp [Conn.Flush, Conn.bwFlush, Conn.sockWrite, hc, hb]

/-- C14: on a new connection, after `Close` or `fatal(e)` has set the
terminal error, `WriteReply(StatusReply("OK"))` returns no error and puts
its five bytes into the write buffer; a `Flush` of buffered bytes after
`Close` returns the error of the closed socket and not the recorded
`redigo: closed`, and so does a `readRequest` that reaches the socket. -/
theorem latched_write_succeeds (e : Error) :
    ((({ } : Conn).Close).1.err = some .closed) ∧
      ((({ } : Conn).Close).1.WriteReply (.status (ascii "OK"))).2 = none ∧
      ((({ } : Conn).Close).1.WriteReply (.status (ascii "OK"))).1.wbuf = ascii "+OK\r\n" ∧
      ((({ wbuf := ascii "+OK\r\n" } : Conn).Close).1.Flush).2 = some .netClosed ∧
      ((({ rd := ascii "*1\r\n$4\r\nPING\r\n" } : Conn).Close).1.readRequest).2 =
        .ret (none, some .netClosed) ∧
      ((({ } : Conn).fatal e).1.err = some e) ∧
      ((({ } : Conn).fatal e).1.WriteReply (.status (ascii "OK"))).2 = none ∧
      ((({ } : Conn).fatal e).1.WriteReply (.status (ascii "OK"))).1.wbuf = ascii "+OK\r\n" := by
  refine ⟨by decide, by decide, by decide, by decide, by decide, rfl, rfl, rfl⟩

/-! The reply to an unknown command as a frame -/

theorem singleLine_append (t : Bytes) : SingleLine (t ++ [13, 10]) ↔ 13 ∉ t ∧ 10 ∉ t := by
  have hl : (t ++ [13, 10]).length - 2 = t.length := by simp
  unfold SingleLine
  rw [hl, List.drop_left, List.take_left]
  simp

theorem handlePass_unknown_sent (toUpper : GoString → GoString) (s : Server) (c c1 : Conn)
    (req : Request)
    (hdec : c.readRequest = (c1, .ret (some req, none)))
    (hunk : s.lookup toUpper req.Command = none)
    (hw : c.writable) :
    (s.handlePass toUpper c).conn.sent =
      c.written ++ ([45] ++ ascii "unknown command: " ++ req.Command ++ [13, 10]) := by
  have hro : c.rdOnly c1 := by
    have := readRequest_rdOnly c maxAlloc
    rw [hdec] at this
    exact this
  have hw1 : c1.writable := by
    rw [hro]
    exact hw
  have hb := bwWrite_ok c1 ([45] ++ (ascii "unknown command: " ++ req.Command) ++ ascii "\r\n") hw1
  generalize hc2 : (c1.bwWrite ([45] ++ (ascii "unknown command: " ++ req.Command) ++
    ascii "\r\n")).1 = c2 at hb
  obtain ⟨-, hcw, hwr⟩ := hb
  have hw2 : c2.writable := wrote_writable ⟨hcw, hwr⟩ hw1
  have hf := Flush_ok c2 hw2
  have hP : s.handlePass toUpper c =
      { conn := { c2 with sent := c2.sent ++ c2.wbuf, wbuf := [] }, ctl := .again,
        invoked := none } := by
    simp only [Server.handlePass, hdec, hunk, Conn.WriteErrorReply, Conn.WriteReply]
    rw [hc2, hf]
  have e1 : c1.written = c.written := by
    rw [hro]
    rfl
  have e2 : c2.sent ++ c2.wbuf = c2.written := rfl
  rw [hP]
  show c2.sent ++ c2.wbuf = _
  rw [e2, hwr, e1]
  simp [ascii]

/-- C21, as the code has it: for every request that `readRequest` decodes
and whose command has no handler, on a connection whose writer takes bytes,
the reply that the serve loop sends is `-unknown command: ` followed by the
bytes of the decoded command name as they are and CR LF; it is a frame of
one line, with no CR and no LF before the final CR LF, if and only if the
command name holds no CR and no LF. -/
theorem unknown_command_reply_frame (toUpper : GoString → GoString) (s : Server) (c c1 : Conn)
    (req : Request)
    (hdec : c.readRequest = (c1, .ret (some req, none)))
    (hunk : s.lookup toUpper req.Command = none)
    (hw : c.writable) :
    (s.handlePass toUpper c).conn.sent =
        c.written ++ ([45] ++ ascii "unknown command: " ++ req.Command ++ [13, 10]) ∧
      (SingleLine ([45] ++ ascii "unknown command: " ++ req.Command ++ [13, 10]) ↔
        13 ∉ req.Command ∧ 10 ∉ req.Command) := by
  refine ⟨handlePass_unknown_sent toUpper s c c1 req hdec hunk hw, ?_⟩
  rw [singleLine_append]
  have h13 : 13 ∉ [45] ++ ascii "unknown command: " := by decide
  have h10 : 10 ∉ [45] ++ ascii "unknown command: " := by decide
  constructor
  · rintro ⟨a, b⟩
    exact ⟨fun h => a (List.mem_append_right _ h), fun h => b (List.mem_append_right _ h)⟩
  · rintro ⟨a, b⟩
    constructor
    · intro h
      rcases List.mem_append.mp h with h | h
      · exact h13 h
      · exact a h
    · intro h
      rcases List.mem_append.mp h with h | h
      · exact h10 h
      · exact b h

theorem unknown_command_reply_frame_witness :
    (Server.handlePass asciiUpper NewServer
        { rd := ascii "*1\r\n$7\r\nUNKNOWN\r\n" }).conn.sent =
        ascii "-unknown command: UNKNOWN\r\n" ∧
      SingleLine (ascii "-unknown command: UNKNOWN\r\n") :=
  ⟨(unknown_command_reply_frame asciiUpper NewServer
      { rd := ascii "*1\r\n$7\r\nUNKNOWN\r\n" } { }
      { Command := ascii "UNKNOWN", Args := [] } (by decide) rfl (by decide)).1,
    (unknown_command_reply_frame asciiUpper NewServer
      { rd := ascii "*1\r\n$7\r\nUNKNOWN\r\n" } { }
      { Command := ascii "UNKNOWN", Args := [] } (by decide) rfl (by decide)).2.mpr
      (by decide)⟩

/-- C21, as stated, fails: the frame `*1\r\n$4\r\nA\r\nB\r\n` is decoded into
the command name `A\r\nB`, and the reply that the serve loop sends for it,
`-unknown command: A\r\nB\r\n`, has a CR LF before its final CR LF. -/
theorem unknown_command_reply_embeds_crlf :
    (({ rd := ascii "*1\r\n$4\r\nA\r\nB\r\n" } : Conn).readRequest).2 =
        .ret (some { Command := ascii "A\r\nB", Args := [] }, none) ∧
      (Server.handlePass asciiUpper NewServer
        { rd := ascii "*1\r\n$4\r\nA\r\nB\r\n" }).conn.sent =
        ascii "-unknown command: A\r\nB\r\n" ∧
      ¬ SingleLine (Server.handlePass asciiUpper NewServer
        { rd := ascii "*1\r\n$4\r\nA\r\nB\r\n" }).conn.sent := by
  decide

end Powerdb
